import Mathlib

/-!
Verification development for the PlanProof deterministic field-mapping engine
(src/planproof/pipeline/field_mapper.py and the relevant part of
src/planproof/pipeline/extract.py).

The Python module works on lists of dictionaries ("text blocks").  Here every
function of the module is translated into an executable Lean definition:

* text blocks become the structure TextBlock, whose fields model the accessors
  the code actually uses: content models b.get("content", b.get("text", "")),
  page_number models int(b.get("page_number", b.get("page", 0))), and index
  models b.get("index", "") (an Option, since the index key may be absent);
* Python dicts used as result maps become insertion-ordered association lists,
  with dictSet implementing dict assignment (overwrite in place, append if
  fresh); a ghost field writes logs every key assignment so that write-once
  properties can be stated;
* floats used for confidences become rationals;
* the fixed regular expressions of the module are hand-compiled into
  backtracking matchers over lists of characters that follow Python's re
  semantics (leftmost match, greedy and lazy quantifier priority, word
  boundaries) for the character classes these patterns use, restricted to the
  ASCII fragment of the \s and \w classes.
-/

namespace PlanProof

/-! ## Character classes and elementary string operations -/

/-- ASCII fragment of Python's regex class \s. -/
def isPySpace (c : Char) : Bool :=
  c = ' ' || c = '\t' || c = '\n' || c = '\r' || c = '\x0b' || c = '\x0c'

/-- Word characters for Python's \b word-boundary semantics (\w, ASCII fragment). -/
def isWordChar (c : Char) : Bool := c.isAlphanum || c = '_'

def isWordOpt : Option Char → Bool
  | none => false
  | some c => isWordChar c

/-- A word boundary sits between two positions whose word-ness differs;
the edge of the string counts as a non-word position. -/
def atBoundary (prev cur : Option Char) : Bool := isWordOpt prev != isWordOpt cur

def isAsciiLetter (c : Char) : Bool := c.isAlpha

/-- needle is a prefix of hay. -/
def prefixMatch : List Char → List Char → Bool
  | [], _ => true
  | _ :: _, [] => false
  | a :: ns, b :: hs => a = b && prefixMatch ns hs

/-- Case-insensitive prefix test that returns the rest of the input. -/
def ciDrop : List Char → List Char → Option (List Char)
  | [], hay => some hay
  | _ :: _, [] => none
  | a :: ns, b :: hs => if a.toLower = b.toLower then ciDrop ns hs else none

def containsSub (needle : List Char) : List Char → Bool
  | [] => prefixMatch needle []
  | c :: rest => prefixMatch needle (c :: rest) || containsSub needle rest

/-- Python's substring containment: needle in hay. -/
def strContains (hay needle : String) : Bool := containsSub needle.data hay.data

def lowerStr (s : String) : String := String.mk (s.data.map Char.toLower)

def upperStr (s : String) : String := String.mk (s.data.map Char.toUpper)

def strStarts (s pre : String) : Bool := prefixMatch pre.data s.data

def strEnds (s suf : String) : Bool := prefixMatch suf.data.reverse s.data.reverse

def slen (s : String) : Nat := s.data.length

/-- Python's " ".join style joining. -/
def joinSep (sep : String) : List String → String
  | [] => ""
  | [x] => x
  | x :: y :: xs => x ++ sep ++ joinSep sep (y :: xs)

/-- Split a character list into maximal runs, dropping separator characters
satisfying p; used to implement whitespace normalization. -/
def splitRuns (p : Char → Bool) : List Char → List (List Char)
  | [] => [[]]
  | c :: rest =>
    let r := splitRuns p rest
    if p c then [] :: r
    else match r with
      | [] => [[c]]
      | t :: ts => (c :: t) :: ts

/-- The whitespace normalizer _norm: collapse any whitespace run to a single
space and strip both ends (re.sub of one or more \s to " ", then strip). -/
def norm (s : String) : String :=
  joinSep " " (((splitRuns isPySpace s.data).filter (fun t => t ≠ [])).map String.mk)

/-- Python str.strip(): drop ASCII whitespace from both ends. -/
def pyStrip (s : String) : String :=
  String.mk (((s.data.dropWhile isPySpace).reverse.dropWhile isPySpace).reverse)

/-- Maximal munch of whitespace: returns the consumed spaces and the rest. -/
def munchSpaces : List Char → List Char × List Char
  | [] => ([], [])
  | c :: rest =>
    if isPySpace c then
      let (sp, r) := munchSpaces rest
      (c :: sp, r)
    else ([], c :: rest)

/-- Maximal munch of decimal digits. -/
def munchDigits : List Char → List Char × List Char
  | [] => ([], [])
  | c :: rest =>
    if c.isDigit then
      let (ds, r) := munchDigits rest
      (c :: ds, r)
    else ([], c :: rest)

/-- Maximal munch of ASCII letters. -/
def munchLetters : List Char → List Char × List Char
  | [] => ([], [])
  | c :: rest =>
    if isAsciiLetter c then
      let (ls, r) := munchLetters rest
      (c :: ls, r)
    else ([], c :: rest)

/-! ## Hand-compiled matchers for the module's regular expressions

Each matcher mirrors one of the compiled patterns at the top of
field_mapper.py.  Captured text is returned exactly as matched (case is
preserved; call sites upper-case where the Python does). -/

/-- All parses of the UK-postcode body [A-Z]{1,2}\d[A-Z\d]?\s*\d[A-Z]{2}
(with re.I) starting at the head of the input, as (consumed, rest) pairs in
backtracking priority order.  The \s* is deterministic (maximal munch) because
the following element is a digit, which is not whitespace. -/
def pcTailParses (s : List Char) : List (List Char × List Char) :=
  let (sp, r) := munchSpaces s
  match r with
  | d :: l1 :: l2 :: rest =>
    if d.isDigit && isAsciiLetter l1 && isAsciiLetter l2 then
      [(sp ++ [d, l1, l2], rest)]
    else []
  | _ => []

/-- The optional [A-Z\d]? followed by the tail; greedy, so the consuming
parse comes first. -/
def pcOptParses (s : List Char) : List (List Char × List Char) :=
  (match s with
   | c :: rest =>
     if c.isAlphanum then
       (pcTailParses rest).map (fun p => (c :: p.1, p.2))
     else []
   | [] => []) ++ pcTailParses s

def pcAfterLettersParses (s : List Char) : List (List Char × List Char) :=
  match s with
  | d :: rest =>
    if d.isDigit then (pcOptParses rest).map (fun p => (d :: p.1, p.2)) else []
  | [] => []

/-- All parses of the postcode body starting here, priority order:
[A-Z]{1,2} is greedy so the two-letter parse comes first. -/
def pcParses (s : List Char) : List (List Char × List Char) :=
  (match s with
   | a :: b :: rest =>
     if isAsciiLetter a && isAsciiLetter b then
       (pcAfterLettersParses rest).map (fun p => (a :: b :: p.1, p.2))
     else []
   | _ => []) ++
  (match s with
   | a :: rest =>
     if isAsciiLetter a then
       (pcAfterLettersParses rest).map (fun p => (a :: p.1, p.2))
     else []
   | [] => [])

/-- POSTCODE_RE search: leftmost position carrying a word boundary at which
some parse of the body is followed by a word boundary; returns group(1). -/
def postcodeSearchAux (prev : Option Char) : List Char → Option String
  | [] => none
  | c :: rest =>
    (if atBoundary prev (some c) then
      match (pcParses (c :: rest)).find?
          (fun p => atBoundary p.1.getLast? p.2.head?) with
      | some p => some (String.mk p.1)
      | none => none
    else none).orElse (fun _ => postcodeSearchAux (some c) rest)

def postcodeSearch (s : String) : Option String := postcodeSearchAux none s.data

/-- APPREF_RE alternative PP-\d{6,}: the digit run is deterministic (greedy
followed by a word boundary, and shrinking it would put a digit after). -/
def apprefAlt1 (s : List Char) : Option (List Char × List Char) :=
  match ciDrop ['P', 'P', '-'] s with
  | none => none
  | some r =>
    let (ds, r2) := munchDigits r
    if 6 ≤ ds.length && !(isWordOpt r2.head?) then
      some ((s.take 3) ++ ds, r2)
    else none

/-- APPREF_RE alternative 20\d{6,}[A-Z]{1,3}: digits are deterministic; the
greedy letter block takes min

 three letters of the following run, and the
trailing boundary then forces exactly that choice. -/
def apprefAlt2 (s : List Char) : Option (List Char × List Char) :=
  match ciDrop ['2', '0'] s with
  | none => none
  | some r =>
    let (ds, r2) := munchDigits r
    if 6 ≤ ds.length then
      let (ls, _) := munchLetters r2
      let t := min 3 ls.length
      let rest := r2.drop t
      if 1 ≤ t && !(isWordOpt rest.head?) then
        some ((s.take 2) ++ ds ++ (r2.take t), rest)
      else none
    else none

def apprefSearchAux (prev : Option Char) : List Char → Option String
  | [] => none
  | c :: rest =>
    (if atBoundary prev (some c) then
      match apprefAlt1 (c :: rest) with
      | some p => some (String.mk p.1)
      | none =>
        match apprefAlt2 (c :: rest) with
        | some p => some (String.mk p.1)
        | none => none
    else none).orElse (fun _ => apprefSearchAux (some c) rest)

/-- APPREF_RE search, returning group(1) (the whole alternation). -/
def apprefSearch (s : String) : Option String := apprefSearchAux none s.data

def isEmailLocalChar (c : Char) : Bool :=
  c.isAlphanum || c = '.' || c = '_' || c = '%' || c = '+' || c = '-'

def isEmailDomainChar (c : Char) : Bool :=
  c.isAlphanum || c = '.' || c = '-'

/-- Maximal munch of a character class. -/
def munchClass (p : Char → Bool) : List Char → List Char × List Char
  | [] => ([], [])
  | c :: rest =>
    if p c then
      let (xs, r) := munchClass p rest
      (c :: xs, r)
    else ([], c :: rest)

/-- Backtracking for the domain of EMAIL_RE: the greedy [A-Z0-9.-]+ gives
back characters until a dot is found whose following letter run (length at
least two) ends at a word boundary; j counts how many characters of the
maximal run the + keeps. -/
def emailDomainLoop (run rest : List Char) : Nat → Option (List Char)
  | 0 => none
  | Nat.succ j =>
    (if run.get? (Nat.succ j) = some '.' then
      let after := run.drop (Nat.succ j + 1) ++ rest
      let (ls, r2) := munchLetters after
      if 2 ≤ ls.length && !(isWordOpt r2.head?) then
        some (run.take (Nat.succ j + 1) ++ ls)
      else none
    else none).orElse (fun _ => emailDomainLoop run rest j)

/-- EMAIL_RE match at this position (the local part is deterministic because
the class excludes the @ sign); returns group(0). -/
def emailAt (s : List Char) : Option (List Char) :=
  let (loc, r) := munchClass isEmailLocalChar s
  if loc.length = 0 then none
  else match r with
    | '@' :: r2 =>
      let (run, rest) := munchClass isEmailDomainChar r2
      match emailDomainLoop run rest (run.length) with
      | some dom => some (loc ++ '@' :: dom)
      | none => none
    | _ => none

def emailSearchAux (prev : Option Char) : List Char → Option String
  | [] => none
  | c :: rest =>
    (if atBoundary prev (some c) then
      match emailAt (c :: rest) with
      | some m => some (String.mk m)
      | none => none
    else none).orElse (fun _ => emailSearchAux (some c) rest)

def emailSearch (s : String) : Option String := emailSearchAux none s.data

def isPhoneInnerChar (c : Char) : Bool :=
  c.isDigit || isPySpace c || c = '(' || c = ')' || c = '.' || c = '-'

/-- Backtracking for PHONE_RE's [\d\s().-]{8,}: the greedy block gives back
characters until the next character is the final digit and a word boundary
follows. -/
def phoneInnerLoop (run rest : List Char) : Nat → Option (List Char)
  | 0 => none
  | Nat.succ k =>
    let len := Nat.succ k
    (if 8 ≤ len then
      match run.get? len with
      | some d =>
        if d.isDigit then
          let after := run.drop (len + 1) ++ rest
          if !(isWordOpt after.head?) then
            some (run.take (len + 1))
          else none
        else none
      | none => none
    else none).orElse (fun _ => phoneInnerLoop run rest k)

/-- PHONE_RE \b(\+?\d[\d\s().-]{8,}\d)\b match at this position;
returns group(1). -/
def phoneAt (s : List Char) : Option (List Char) :=
  let (plus, s1) : List Char × List Char :=
    match s with
    | '+' :: r => (['+'], r)
    | _ => ([], s)
  match s1 with
  | d :: r =>
    if d.isDigit then
      let (run, rest) := munchClass isPhoneInnerChar r
      match phoneInnerLoop run rest run.length with
      | some inner => some (plus ++ d :: inner)
      | none => none
    else none
  | [] => none

def phoneSearchAux (prev : Option Char) : List Char → Option String
  | [] => none
  | c :: rest =>
    (if atBoundary prev (some c) then
      match phoneAt (c :: rest) with
      | some m => some (String.mk m)
      | none => none
    else none).orElse (fun _ => phoneSearchAux (some c) rest)

def phoneSearch (s : String) : Option String := phoneSearchAux none s.data

def isDateSep (c : Char) : Bool := c = '.' || c = '/' || c = '-'

/-- One \d{1,2} block followed by a separator, in greedy priority order. -/
def dateHeadParses (s : List Char) : List (List Char) :=
  (match s with
   | a :: b :: sep :: rest =>
     if a.isDigit && b.isDigit && isDateSep sep then [rest] else []
   | _ => []) ++
  (match s with
   | a :: sep :: rest =>
     if a.isDigit && isDateSep sep then [rest] else []
   | _ => [])

/-- DATE_LIKE match at this position: \b, one or two digits, a separator
(dot, slash or hyphen), one or two digits, a separator, then \d{2,4}\b.
The final digit block followed by \b forces taking the whole digit run,
which must have length between two and four. -/
def dateAt (s : List Char) : Bool :=
  (dateHeadParses s).any (fun r1 =>
    (dateHeadParses r1).any (fun r2 =>
      let (ds, r3) := munchDigits r2
      2 ≤ ds.length && ds.length ≤ 4 && !(isWordOpt r3.head?)))

def dateSearchAux (prev : Option Char) : List Char → Bool
  | [] => false
  | c :: rest =>
    (atBoundary prev (some c) && dateAt (c :: rest)) || dateSearchAux (some c) rest

/-- DATE_LIKE search. -/
def dateLikeSearch (s : String) : Bool := dateSearchAux none s.data

def isAddrClassChar (c : Char) : Bool :=
  (c.isUpper || c.isDigit) || c = '\'' || c = '’' || c = '-' || c = ' '

/-- After the mandatory first whitespace of \s+, the greedy quantifier may
keep eating whitespace before handing over to [A-Z0-9'’\- ]{4,}$. -/
def addrAfterSpace : List Char → Bool
  | [] => false
  | c :: rest =>
    (4 ≤ (c :: rest).length && (c :: rest).all isAddrClassChar) ||
    (isPySpace c && addrAfterSpace rest)

/-- ADDRESS_LIKE re.match of ^\s*\d+\s+[A-Z0-9'’\- ]{4,}$ (anchored whole
match; the pattern is case sensitive). -/
def addressLikeMatch (s : String) : Bool :=
  let (_, r1) := munchSpaces s.data
  let (ds, r2) := munchDigits r1
  1 ≤ ds.length &&
    (match r2 with
     | c :: rest => isPySpace c && addrAfterSpace rest
     | [] => false)

/-- re.match of ^\s*\d+\s+\d+\s*$ (grid-reference filter). -/
def gridRefMatch (s : String) : Bool :=
  let (_, r1) := munchSpaces s.data
  let (d1, r2) := munchDigits r1
  let (sp, r3) := munchSpaces r2
  let (d2, r4) := munchDigits r3
  let (_, r5) := munchSpaces r4
  1 ≤ d1.length && 1 ≤ sp.length && 1 ≤ d2.length && r5 = []

/-- re.match of ^\s*\d+\s*$ (pure-number filter). -/
def pureNumberMatch (s : String) : Bool :=
  let (_, r1) := munchSpaces s.data
  let (ds, r2) := munchDigits r1
  let (_, r3) := munchSpaces r2
  1 ≤ ds.length && r3 = []

def proposalWords : List String :=
  ["PROPOS", "DEVELOPMENT", "CONVERSION", "USE", "HMO", "EXTENSION", "LOFT", "DORMER"]

/-- PROPOSAL_HINTS \b(PROPOS|DEVELOPMENT|CONVERSION|USE|HMO|EXTENSION|LOFT|DORMER)\b
with re.I; every alternative is a pure letter word, so the boundaries amount
to non-word neighbours. -/
def proposalHintsAux (prev : Option Char) : List Char → Bool
  | [] => false
  | c :: rest =>
    (atBoundary prev (some c) &&
      proposalWords.any (fun w =>
        match ciDrop w.data (c :: rest) with
        | some r => !(isWordOpt r.head?)
        | none => false)) ||
    proposalHintsAux (some c) rest

def proposalHintsSearch (s : String) : Bool := proposalHintsAux none s.data

/-- Matcher for the hint patterns of the shape tok0\s*&\s*tok1(\s*tok2) used
in DOC_TYPE_HINTS (ampersand-separated tokens with optional whitespace).
The inner \s* are deterministic because each is followed by a non-space
literal. -/
def tokenGapAt (toks : List (List Char)) (s : List Char) : Bool :=
  match toks with
  | [] => true
  | t :: ts =>
    match ciDrop t s with
    | some r =>
      match ts with
      | [] => true
      | _ =>
        let (_, r2) := munchSpaces r
        tokenGapAt ts r2
    | none => false

def tokenGapSearchAux (toks : List (List Char)) : List Char → Bool
  | [] => tokenGapAt toks []
  | c :: rest => tokenGapAt toks (c :: rest) || tokenGapSearchAux toks rest

def tokenGapSearch (toks : List String) (s : String) : Bool :=
  tokenGapSearchAux (toks.map String.data) s.data

/-- Matcher for the \b1:1250\b style hints: the literal flanked by word
boundaries relative to its word first and last characters. -/
def boundedLitAux (lit : List Char) (prev : Option Char) : List Char → Bool
  | [] => false
  | c :: rest =>
    (atBoundary prev (some c) &&
      (match ciDrop lit (c :: rest) with
       | some r => !(isWordOpt r.head?)
       | none => false)) ||
    boundedLitAux lit (some c) rest

def boundedLitSearch (lit : String) (s : String) : Bool :=
  boundedLitAux lit.data none s.data

/-- re.split of the pattern ":" with maxsplit one. -/
def splitColonAux (acc : List Char) : List Char → Option (String × String)
  | [] => none
  | c :: rest =>
    if c = ':' then some (String.mk acc.reverse, String.mk rest)
    else splitColonAux (c :: acc) rest

def splitColonOnce (t : String) : List String :=
  match splitColonAux [] t.data with
  | some (a, b) => [a, b]
  | none => [t]

/-- re.split of the pattern ":|for" with maxsplit one: split at the leftmost
occurrence of a colon or of the three letters f o r. -/
def splitColonForAux (acc : List Char) : List Char → Option (String × String)
  | [] => none
  | c :: rest =>
    if c = ':' then some (String.mk acc.reverse, String.mk rest)
    else if prefixMatch ['f', 'o', 'r'] (c :: rest) then
      some (String.mk acc.reverse, String.mk (rest.drop 2))
    else splitColonForAux (c :: acc) rest

def splitColonForOnce (t : String) : List String :=
  match splitColonForAux [] t.data with
  | some (a, b) => [a, b]
  | none => [t]

/-- re.sub of ",\s*$" by the empty string: remove one trailing comma together
with the whitespace after it, if the string ends that way. -/
def subTrailingCommaSpace (s : String) : String :=
  let t := s.data.reverse.dropWhile isPySpace
  match t with
  | ',' :: t2 => String.mk t2.reverse
  | _ => s

/-- All parses of the demolition pattern from the position after the spaces
that follow the word of: the lazy (.+?) grows one character at a time (never
across a newline, which . does not match), each time trying \s+ followed by
the postcode body.  Returns group(1) and group(2). -/
def demoGroupAux (acc : List Char) : List Char → Option (List Char × List Char)
  | [] => none
  | c :: rest =>
    if c = '\n' then none
    else
      let g := acc ++ [c]
      let (sp, r) := munchSpaces rest
      if 1 ≤ sp.length then
        match pcParses r with
        | p :: _ => some (g, p.1)
        | [] => demoGroupAux g rest
      else demoGroupAux g rest

/-- The greedy \s+ after of hands characters back to the lazy group one at a
time; k is how many whitespace characters the \s+ keeps. -/
def demoSpacesLoop (ws r4 : List Char) : Nat → Option (List Char × List Char)
  | 0 => none
  | Nat.succ k =>
    (demoGroupAux [] (ws.drop (Nat.succ k) ++ r4)).orElse
      (fun _ => demoSpacesLoop ws r4 k)

/-- Match of demolition\s+of\s+(.+?)(?:\s+([A-Z]{1,2}\d[A-Z\d]?\s*\d[A-Z]{2}))
(re.I) at this position. -/
def demolitionAt (s : List Char) : Option (List Char × List Char) :=
  match ciDrop "demolition".data s with
  | none => none
  | some r1 =>
    let (sp1, r2) := munchSpaces r1
    if sp1.length = 0 then none
    else match ciDrop "of".data r2 with
      | none => none
      | some r3 =>
        let (ws, r4) := munchSpaces r3
        if ws.length = 0 then none
        else demoSpacesLoop ws r4 ws.length

def demolitionSearchAux : List Char → Option (List Char × List Char)
  | [] => none
  | c :: rest => (demolitionAt (c :: rest)).orElse (fun _ => demolitionSearchAux rest)

/-- Search for the demolition pattern; returns (group(1), group(2)). -/
def demolitionSearch (s : String) : Option (String × String) :=
  match demolitionSearchAux s.data with
  | some (g1, g2) => some (String.mk g1, String.mk g2)
  | none => none

/-! ## Data model -/

/-- One text block of the extracted layout.  The fields model the dictionary
accessors used throughout field_mapper.py: content stands for
b.get("content", b.get("text", "")), page_number for
int(b.get("page_number", b.get("page", 0))), and index for b.get("index", "")
(none when the index key has not been assigned yet, in which case the
f-string renders it as the empty string). -/
structure TextBlock where
  content : String
  page_number : Int
  index : Option Nat
deriving DecidableEq, Repr

def defaultBlock : TextBlock := ⟨"", 0, none⟩

def getBlock (blocks : List TextBlock) (i : Nat) : TextBlock :=
  blocks.getD i defaultBlock

/-- The block identifier used in evidence entries:
the f-string of p, the page number, b, and the index (empty when absent). -/
def blockIdOf (b : TextBlock) : String :=
  "p" ++ toString b.page_number ++ "b" ++
    (match b.index with
     | some i => toString i
     | none => "")

/-- A value stored in the fields dictionary: a string or a confidence
number (Python float, modelled as a rational). -/
inductive FieldVal where
  | str (s : String)
  | num (q : ℚ)
deriving DecidableEq, Repr

/-- One evidence entry as built by _add_ev. -/
structure EvidenceEntry where
  page : Int
  block_id : String
  snippet : String
  confidence : ℚ
  source_doc_type : Option String
deriving DecidableEq, Repr

/-- The mutable state of one map_fields run: the fields dict and the
evidence dict, both as insertion-ordered association lists, plus a ghost
log of every fields-key assignment (used to state the write-once
property; it does not influence the computation). -/
structure MapState where
  fields : List (String × FieldVal)
  evidence : List (String × List EvidenceEntry)
  writes : List String
deriving DecidableEq, Repr

def keysOf (fields : List (String × FieldVal)) : List String := fields.map Prod.fst

/-- Python dict membership: key in fields. -/
def hasKey (fields : List (String × FieldVal)) (k : String) : Bool :=
  (keysOf fields).contains k

/-- Python dict assignment fields[k] = v: overwrite in place when the key
exists, append otherwise; the ghost log records the assignment. -/
def dictSet (s : MapState) (k : String) (v : FieldVal) : MapState :=
  { fields :=
      if hasKey s.fields k then
        s.fields.map (fun p => if p.1 = k then (k, v) else p)
      else s.fields ++ [(k, v)],
    evidence := s.evidence,
    writes := s.writes ++ [k] }

/-- _add_ev: ev.setdefault(field, []).append of the entry built from the
page, block id, normalized 240-character snippet, confidence and source
document type. -/
def add_ev (ev : List (String × List EvidenceEntry)) (field : String) (page : Int)
    (block_id snippet : String) (confidence : ℚ) (source_doc_type : Option String) :
    List (String × List EvidenceEntry) :=
  let e : EvidenceEntry :=
    ⟨page, block_id, String.mk ((norm snippet).data.take 240), confidence, source_doc_type⟩
  if (ev.map Prod.fst).contains field then
    ev.map (fun p => if p.1 = field then (p.1, p.2 ++ [e]) else p)
  else ev ++ [(field, [e])]

def addEvS (s : MapState) (field : String) (page : Int) (block_id snippet : String)
    (confidence : ℚ) (source_doc_type : Option String) : MapState :=
  { s with evidence := add_ev s.evidence field page block_id snippet confidence source_doc_type }

/-- The recurring three-step write of map_fields: set the field, set the
parallel confidence entry, record the evidence with the same confidence. -/
def writeFieldWithEv (s : MapState) (field : String) (v : FieldVal) (c : ℚ)
    (page : Int) (block_id snippet : String) (dtype : String) : MapState :=
  let s1 := dictSet s field v
  let s2 := dictSet s1 (field ++ "_confidence") (FieldVal.num c)
  addEvS s2 field page block_id snippet c (some dtype)

/-- Python truthiness of an optional string (None and the empty string are
falsy). -/
def optTruthy : Option String → Bool
  | none => false
  | some s => s ≠ ""

/-- The lookup a [k] on an association list (keys are unique by
construction here, so this agrees with Python dict access). -/
def lookupF (fields : List (String × FieldVal)) (k : String) : Option FieldVal :=
  List.lookup k fields

def lookupEv (ev : List (String × List EvidenceEntry)) (k : String) :
    Option (List EvidenceEntry) :=
  List.lookup k ev

/-! ## field_mapper.py: helper predicates -/

/-- _looks_like_allcaps: at least eight letters of which strictly more than
eighty percent are upper case.  The Python float division is modelled
exactly by rational division. -/
def looks_like_allcaps (s : String) : Bool :=
  let letters := s.data.filter (fun c => c.isAlpha)
  if letters.length < 8 then false
  else
    let upp := (letters.filter (fun c => c.isUpper)).length
    decide (mkRat upp (max 1 letters.length) > mkRat 8 10)

/-- _is_noise. -/
def is_noise (s : String) : Bool :=
  let sl := lowerStr s
  ["copyright", "notes:", "scale", "printed on", "os 1000",
   "disclaimer", "this drawing", "for information only"].any (fun k => strContains sl k)

/-- _is_council_contact. -/
def is_council_contact (s : String) : Bool :=
  let sl := lowerStr s
  ["birmingham.gov.uk", "planning.registration", "council", "local authority",
   "planning department", "planning@", "0121 464", "po box"].any
    (fun k => strContains sl k)

def siteSectionHeaders : List String :=
  ["site location", "site address", "address of site", "location of site",
   "property address"]

/-- _is_in_site_location_section: look backwards through the ten blocks
before block_index for a section header (the Python range of max (0, i-10)
up to i is the corresponding slice). -/
def is_in_site_location_section (blocks : List TextBlock) (block_index : Nat) : Bool :=
  ((blocks.take block_index).drop (block_index - 10)).any (fun b =>
    let t := lowerStr (norm b.content)
    siteSectionHeaders.any (fun h => strContains t h))

/-- looks_like_phone: not date shaped. -/
def looks_like_phone (s : String) : Bool := !(dateLikeSearch s)

/-! ## field_mapper.py: address extraction cascade -/

def sectionFindHeaders : List String :=
  ["site location", "site address", "address of site", "property address"]

/-- The first index among the first 200 blocks whose normalized, lower-cased
content contains a section header. -/
def findSectionHeader (blocks : List TextBlock) : Option Nat :=
  (List.range (min 200 blocks.length)).find? (fun i =>
    let t := lowerStr (norm (getBlock blocks i).content)
    sectionFindHeaders.any (fun h => strContains t h))

/-- The five labelled sub-fields collected by
extract_site_address_from_section; None models Python None and the empty
string keeps Python's falsiness. -/
structure SectionAcc where
  property_name : Option String
  address_line1 : Option String
  address_line2 : Option String
  town_city : Option String
  postcode : Option String
deriving DecidableEq, Repr

/-- The value after a colon of a label-colon-value block, when the split
produced two parts. -/
def colonValue (t : String) : Option String :=
  match splitColonOnce t with
  | [_, v] => some (norm v)
  | _ => none

/-- The loop body of extract_site_address_from_section for block i
(the sequence of independent if statements followed by the
value-follows-label elif chain). -/
def sectionStep (blocks : List TextBlock) (start_idx : Nat) (acc : SectionAcc)
    (i : Nat) : SectionAcc :=
  let b := getBlock blocks i
  let t := norm b.content
  let tl := lowerStr t
  if t = "" || is_noise t || t.data.length < 2 then acc
  else
    let acc :=
      if strContains tl "property name" && !(optTruthy acc.property_name) then
        match colonValue t with
        | some v => { acc with property_name := some v }
        | none => acc
      else acc
    let acc :=
      if strContains tl "address line 1" ||
          (strContains tl "address" && strContains tl "line" && strContains tl "1") then
        match colonValue t with
        | some v => { acc with address_line1 := some v }
        | none => acc
      else acc
    let acc :=
      if strContains tl "address line 2" ||
          (strContains tl "address" && strContains tl "line" && strContains tl "2") then
        match colonValue t with
        | some v => { acc with address_line2 := some v }
        | none => acc
      else acc
    let acc :=
      if strContains tl "town" || strContains tl "city" then
        match colonValue t with
        | some v => { acc with town_city := some v }
        | none => acc
      else acc
    let acc :=
      if strContains tl "postcode" then
        match splitColonOnce t with
        | [_, v] =>
          match postcodeSearch v with
          | some pc => { acc with postcode := some (upperStr pc) }
          | none => acc
        | _ => acc
      else acc
    if i > start_idx + 1 then
      let prev_t := lowerStr (norm (getBlock blocks (i - 1)).content)
      if strContains prev_t "property name" && !(optTruthy acc.property_name) then
        { acc with property_name := some t }
      else if (strContains prev_t "address line 1" || strContains prev_t "address") &&
          !(optTruthy acc.address_line1) then
        { acc with address_line1 := some t }
      else if strContains prev_t "address line 2" && !(optTruthy acc.address_line2) then
        { acc with address_line2 := some t }
      else if (strContains prev_t "town" || strContains prev_t "city") &&
          !(optTruthy acc.town_city) then
        { acc with town_city := some t }
      else if strContains prev_t "postcode" && !(optTruthy acc.postcode) then
        match postcodeSearch t with
        | some pc => { acc with postcode := some (upperStr pc) }
        | none => acc
      else acc
    else acc

/-- extract_site_address_from_section. -/
def extract_site_address_from_section (blocks : List TextBlock) :
    Option String × Option TextBlock × ℚ :=
  match findSectionHeader blocks with
  | none => (none, none, 0)
  | some start_idx =>
    let acc : SectionAcc := ⟨none, none, none, none, none⟩
    let stop := min (start_idx + 20) blocks.length
    let acc := (List.range' (start_idx + 1) (stop - (start_idx + 1))).foldl
      (sectionStep blocks start_idx) acc
    let address_parts :=
      (if optTruthy acc.property_name then [acc.property_name.getD ""] else []) ++
      (if optTruthy acc.address_line1 then [acc.address_line1.getD ""] else []) ++
      (if optTruthy acc.address_line2 then [acc.address_line2.getD ""] else []) ++
      (if optTruthy acc.town_city then [acc.town_city.getD ""] else []) ++
      (if optTruthy acc.postcode then [acc.postcode.getD ""] else [])
    if address_parts ≠ [] then
      let full_address := joinSep ", " address_parts
      let source_block :=
        if start_idx < blocks.length then getBlock blocks start_idx else getBlock blocks 0
      (some full_address, some source_block, mkRat 95 100)
    else (none, none, 0)

/-- extract_address_from_demolition_pattern (scans the first 100 blocks). -/
def extract_address_from_demolition_pattern_aux :
    List TextBlock → Option String × Option TextBlock × ℚ
  | [] => (none, none, 0)
  | b :: rest =>
    let t := norm b.content
    let tl := lowerStr t
    if strContains tl "demolition of" || strContains tl "demolition" then
      match demolitionSearch t with
      | some (g1, g2) =>
        let address_part := pyStrip g1
        let postcode_part := some (upperStr g2)
        let address_part := subTrailingCommaSpace address_part
        let full_address :=
          match postcode_part with
          | some pc => address_part ++ ", " ++ pc
          | none => address_part
        if full_address.data.length > 10 then (some full_address, some b, mkRat 85 100)
        else extract_address_from_demolition_pattern_aux rest
      | none => extract_address_from_demolition_pattern_aux rest
    else extract_address_from_demolition_pattern_aux rest

def extract_address_from_demolition_pattern (blocks : List TextBlock) :
    Option String × Option TextBlock × ℚ :=
  extract_address_from_demolition_pattern_aux (blocks.take 100)

/-- The candidate tracked by strategy three of pick_site_address. -/
structure HeurBest where
  best_match : Option String
  best_block : Option TextBlock
  best_confidence : ℚ
deriving DecidableEq, Repr

/-- The loop body of the heuristic strategy of pick_site_address. -/
def heurStep (blocks : List TextBlock) (best : HeurBest) (p : Nat × TextBlock) :
    HeurBest :=
  let i := p.1
  let b := p.2
  let t := norm b.content
  if t = "" || is_noise t then best
  else if t.data.length < 5 || strContains (lowerStr t) "disclaimer" ||
      strContains (lowerStr t) "for information" then best
  else if gridRefMatch t then best
  else if pureNumberMatch t then best
  else
    let in_site_section := is_in_site_location_section blocks i
    if addressLikeMatch t then
      let confidence : ℚ := if in_site_section then mkRat 7 10 else mkRat 4 10
      if confidence > best.best_confidence then ⟨some t, some b, confidence⟩ else best
    else if ["site address", "address of site", "site location"].any
        (fun lab => strContains (lowerStr t) lab) then
      match splitColonOnce t with
      | [_, v0] =>
        if norm v0 ≠ "" then
          let val := norm v0
          if val.data.length > 5 then
            let confidence : ℚ := if in_site_section then mkRat 8 10 else mkRat 6 10
            if confidence > best.best_confidence then ⟨some val, some b, confidence⟩
            else best
          else best
        else best
      | _ => best
    else best

/-- pick_site_address: the three-strategy cascade. -/
def pick_site_address (blocks : List TextBlock) :
    Option String × Option TextBlock × ℚ :=
  let r1 := extract_site_address_from_section blocks
  if optTruthy r1.1 && decide (mkRat 9 10 ≤ r1.2.2) then r1
  else
    let r2 := extract_address_from_demolition_pattern blocks
    if optTruthy r2.1 && decide (mkRat 8 10 ≤ r2.2.2) then r2
    else
      let best := ((blocks.take 100).enum).foldl (heurStep blocks) ⟨none, none, 0⟩
      if optTruthy best.best_match && decide (best.best_confidence > mkRat 3 10) then
        (best.best_match, best.best_block, best.best_confidence)
      else (none, none, 0)

/-- pick_proposed_use (scans the first 80 blocks). -/
def pick_proposed_use_aux : List TextBlock → Option String × Option TextBlock × ℚ
  | [] => (none, none, 0)
  | b :: rest =>
    let t := norm b.content
    if t = "" || is_noise t then pick_proposed_use_aux rest
    else if proposalHintsSearch t && t.data.length ≥ 20 &&
        (looks_like_allcaps t || strEnds t ".") then
      let confidence : ℚ := if t.data.length ≥ 30 then mkRat 7 10 else mkRat 5 10
      (some t, some b, confidence)
    else pick_proposed_use_aux rest

def pick_proposed_use (blocks : List TextBlock) :
    Option String × Option TextBlock × ℚ :=
  pick_proposed_use_aux (blocks.take 80)

/-! ## field_mapper.py: document classification -/

def substrHint (lit : String) : String → Bool := fun t => strContains t lit

def application_form_hints : List (String → Bool) :=
  [substrHint "application form", substrHint "planning application",
   substrHint "town and country planning", substrHint "planning portal reference",
   substrHint "application to determine if prior approval",
   substrHint "i/we hereby apply for prior approval", substrHint "prior approval"]

def site_notice_hints : List (String → Bool) :=
  [substrHint "statement of display of a site notice",
   substrHint "site notice of application", substrHint "site notice",
   substrHint "notice of application"]

def site_plan_hints : List (String → Bool) :=
  [tokenGapSearch ["location", "&", "block", "plan"], substrHint "location plan",
   substrHint "block plan", boundedLitSearch "1:1250", boundedLitSearch "1:500",
   boundedLitSearch "1:2500"]

def drawing_hints : List (String → Bool) :=
  [substrHint "existing", substrHint "proposed", substrHint "elevation",
   substrHint "floor plan", substrHint "section"]

def design_statement_hints : List (String → Bool) :=
  [substrHint "design and access statement", tokenGapSearch ["design", "&", "access"]]

def heritage_hints : List (String → Bool) :=
  [substrHint "heritage statement", substrHint "listed building",
   substrHint "conservation area"]

/-- DOC_TYPE_HINTS in its Python insertion order. -/
def DOC_TYPE_HINTS : List (String × List (String → Bool)) :=
  [("application_form", application_form_hints),
   ("site_notice", site_notice_hints),
   ("site_plan", site_plan_hints),
   ("drawing", drawing_hints),
   ("design_statement", design_statement_hints),
   ("heritage", heritage_hints)]

/-- The score of a hint set on the search corpus: how many hints match. -/
def hintScore (hints : List (String → Bool)) (text : String) : Nat :=
  (hints.filter (fun h => h text)).length

def priority_order : List String :=
  ["application_form", "site_notice", "site_plan", "design_statement",
   "heritage", "drawing"]

/-- The lower-cased search corpus of the first 200 blocks. -/
def corpusOf (text_blocks : List TextBlock) : String :=
  lowerStr (joinSep " " ((text_blocks.take 200).map (fun b => norm b.content)))

/-- classify_document. -/
def classify_document (text_blocks : List TextBlock) : String :=
  let text := corpusOf text_blocks
  let best : String × Nat := priority_order.foldl (fun best dtype =>
    match DOC_TYPE_HINTS.find? (fun p => p.1 = dtype) with
    | none => best
    | some hp =>
      let score := hintScore hp.2 text
      if score > best.2 then (dtype, score) else best) ("unknown", 0)
  let best :=
    if best.2 = 0 then
      DOC_TYPE_HINTS.foldl (fun best p =>
        if priority_order.contains p.1 then best
        else
          let score := hintScore p.2 text
          if score > best.2 then (p.1, score) else best) best
    else best
  best.1

/-- The hint score of one document type: the number of its DOC_TYPE_HINTS
patterns matching the corpus (0 for a type with no hint entry). -/
def doctypeScore (text_blocks : List TextBlock) (dtype : String) : Nat :=
  match DOC_TYPE_HINTS.find? (fun p => p.1 = dtype) with
  | none => 0
  | some hp => hintScore hp.2 (corpusOf text_blocks)

/-! ## field_mapper.py: label-based fallback -/

def LABEL_PATTERNS : List (String × List String) :=
  [("site_address", ["site address", "address of site", "site location"]),
   ("proposal_description",
    ["proposal", "description of development", "proposed development",
     "what are you proposing"]),
   ("applicant_name", ["applicant name", "name of applicant", "first name", "surname"]),
   ("agent_name", ["agent name", "name of agent"]),
   ("proposed_use",
    ["i/we hereby apply for prior approval", "prior approval for", "declaration"])]

/-- The next-blocks gathering of extract_by_label: up to three following
blocks, stopping once the joined text exceeds twenty characters. -/
def gatherNext (blocks : List TextBlock) (i : Nat) : List String :=
  let nxt : List String := []
  let nxt :=
    if i + 1 < blocks.length then
      let txt := norm (getBlock blocks (i + 1)).content
      if txt ≠ "" then nxt ++ [txt] else nxt
    else nxt
  if (joinSep " " nxt).data.length > 20 then nxt
  else
    let nxt :=
      if i + 2 < blocks.length then
        let txt := norm (getBlock blocks (i + 2)).content
        if txt ≠ "" then nxt ++ [txt] else nxt
      else nxt
    if (joinSep " " nxt).data.length > 20 then nxt
    else
      if i + 3 < blocks.length then
        let txt := norm (getBlock blocks (i + 3)).content
        if txt ≠ "" then nxt ++ [txt] else nxt
      else nxt

/-- extract_by_label scans the whole block list (the loop is not capped). -/
def extract_by_label_aux (blocks : List TextBlock) (label_patterns : List String) :
    Nat → List TextBlock → Option (String × TextBlock)
  | _, [] => none
  | i, b :: rest =>
    let t := norm b.content
    let tl := lowerStr t
    if label_patterns.any (fun p => strContains tl p) then
      match colonValue t with
      | some v =>
        if v ≠ "" then some (v, b)
        else
          let nxt := gatherNext blocks i
          if nxt ≠ [] then some (norm (joinSep " " nxt), b)
          else extract_by_label_aux blocks label_patterns (i + 1) rest
      | none =>
        let nxt := gatherNext blocks i
        if nxt ≠ [] then some (norm (joinSep " " nxt), b)
        else extract_by_label_aux blocks label_patterns (i + 1) rest
    else extract_by_label_aux blocks label_patterns (i + 1) rest

def extract_by_label (text_blocks : List TextBlock) (label_patterns : List String) :
    Option (String × TextBlock) :=
  extract_by_label_aux text_blocks label_patterns 0 text_blocks

/-! ## field_mapper.py: map_fields -/

/-- The extracted layout as far as map_fields reads it: the text_blocks
entry (none models a missing or None key, which the source turns into the
empty list) and the tables entry used by the extract pipeline. -/
structure PTable where
  page_number : Int
  row_count : Int
  column_count : Int
  cells : List String
deriving DecidableEq, Repr

structure ExtractedLayout where
  text_blocks : Option (List TextBlock)
  tables : List PTable
deriving DecidableEq, Repr

/-- The application-reference loop: first block of the first 400 whose raw
content matches APPREF_RE; the source assigns the same value in both
branches of its if/else on the PP- prefix, and computes the confidence
expression twice, identically. -/
def stage_appref_aux (dtype : String) : List TextBlock → MapState → MapState
  | [], s => s
  | b :: rest, s =>
    let t := b.content
    match apprefSearch t with
    | some m =>
      let ref := upperStr m
      let confidence : ℚ := if strContains ref "PP-" then mkRat 9 10 else mkRat 8 10
      writeFieldWithEv s "application_ref" (FieldVal.str ref) confidence b.page_number
        (blockIdOf b) t dtype
    | none => stage_appref_aux dtype rest s

def stage_appref (blocks : List TextBlock) (dtype : String) (s : MapState) : MapState :=
  stage_appref_aux dtype (blocks.take 400) s

/-- The site_address stage. -/
def stage_site_address (blocks : List TextBlock) (dtype : String) (s : MapState) :
    MapState :=
  if hasKey s.fields "site_address" then s
  else
    let r := pick_site_address blocks
    match r.1, r.2.1 with
    | some addr, some src =>
      if addr ≠ "" then
        writeFieldWithEv s "site_address" (FieldVal.str addr) r.2.2 src.page_number
          (blockIdOf src) src.content dtype
      else s
    | _, _ => s

/-- The prior-approval loop of the proposed_use stage: scans the first 100
blocks; a block whose split yields a trailing text of more than ten
characters wins and stops the loop. -/
def stage_proposed_prior_aux (dtype : String) : List TextBlock → MapState → MapState
  | [], s => s
  | b :: rest, s =>
    let t := norm b.content
    let tl := lowerStr t
    if strContains tl "i/we hereby apply for prior approval" ||
        strContains tl "prior approval for" then
      match splitColonForOnce t with
      | [_, p1] =>
        let prop_text := norm p1
        if prop_text.data.length > 10 then
          writeFieldWithEv s "proposed_use" (FieldVal.str prop_text) (mkRat 9 10)
            b.page_number (blockIdOf b) t dtype
        else stage_proposed_prior_aux dtype rest s
      | _ => stage_proposed_prior_aux dtype rest s
    else stage_proposed_prior_aux dtype rest s

/-- The proposed_use stage: prior-approval pattern first, then the
heuristic pick_proposed_use fallback. -/
def stage_proposed_use (blocks : List TextBlock) (dtype : String) (s : MapState) :
    MapState :=
  if hasKey s.fields "proposed_use" then s
  else
    let s := stage_proposed_prior_aux dtype (blocks.take 100) s
    if hasKey s.fields "proposed_use" then s
    else
      let r := pick_proposed_use blocks
      match r.1, r.2.1 with
      | some prop, some src =>
        if prop ≠ "" then
          writeFieldWithEv s "proposed_use" (FieldVal.str prop) r.2.2 src.page_number
            (blockIdOf src) src.content dtype
        else s
      | _, _ => s

/-- One iteration of the labelled-fields fallback loop. -/
def labelStep (blocks : List TextBlock) (dtype : String) (s : MapState)
    (fp : String × List String) : MapState :=
  if hasKey s.fields fp.1 then s
  else
    match extract_by_label blocks fp.2 with
    | some (val, src) =>
      if val ≠ "" then
        writeFieldWithEv s fp.1 (FieldVal.str val) (mkRat 7 10) src.page_number
          (blockIdOf src) src.content dtype
      else s
    | none => s

/-- The labelled-fields fallback loop over LABEL_PATTERNS. -/
def stage_labels (blocks : List TextBlock) (dtype : String) (s : MapState) : MapState :=
  LABEL_PATTERNS.foldl (labelStep blocks dtype) s

/-- One postcode candidate: the matched postcode, its block, the
context-scored confidence and the block index. -/
structure PostcodeCandidate where
  pc : String
  block : TextBlock
  conf : ℚ
  idx : Nat
deriving DecidableEq, Repr

/-- The candidate-collection loop of the postcode stage over the first 400
blocks. -/
def postcodeCandidates (blocks : List TextBlock) : List PostcodeCandidate :=
  ((blocks.take 400).enum).foldl (fun acc p =>
    let i := p.1
    let b := p.2
    let t := b.content
    match postcodeSearch t with
    | none => acc
    | some g =>
      let postcode := upperStr g
      let in_site_section := is_in_site_location_section blocks i
      let tl := lowerStr t
      let confidence : ℚ :=
        if in_site_section || strContains tl "postcode" then mkRat 9 10
        else if strContains tl "site" || strContains tl "address" then mkRat 7 10
        else mkRat 5 10
      let confidence :=
        if is_council_contact t || strContains tl "po box" ||
            strContains tl "birmingham city council" then
          if strStarts postcode "B1 1TU" || strContains tl "po box" then mkRat 1 10
          else confidence
        else confidence
      acc ++ [⟨postcode, b, confidence, i⟩]) []

/-- Sorting by confidence descending.  Python's list.sort with reverse set
is stable, and a stable sort is fully determined by the key and the input
order, so the structurally recursive stable insertion sort below computes
exactly the list Python produces. -/
def sortByConfDesc (l : List PostcodeCandidate) : List PostcodeCandidate :=
  List.insertionSort (fun a b => b.conf ≤ a.conf) l

/-- The postcode stage: collect candidates, sort them by confidence
descending with Python's stable sort, accept the top candidate when its
confidence is at least 0.3.  The source also collects the unused
site_location_blocks list just before; it is never read. -/
def stage_postcode (blocks : List TextBlock) (dtype : String) (s : MapState) :
    MapState :=
  let _site_location_blocks :=
    ((blocks.take 400).enum).filter (fun p => is_in_site_location_section blocks p.1)
  let postcode_candidates := postcodeCandidates blocks
  if postcode_candidates ≠ [] && !(hasKey s.fields "postcode") then
    match sortByConfDesc postcode_candidates with
    | c :: _ =>
      if mkRat 3 10 ≤ c.conf then
        writeFieldWithEv s "postcode" (FieldVal.str c.pc) c.conf c.block.page_number
          (blockIdOf c.block) c.block.content dtype
      else s
    | [] => s
  else s

/-- The slice blocks[a:b] of Python (with the clamping Python slicing
performs built in). -/
def pySlice (l : List TextBlock) (a b : Nat) : List TextBlock :=
  (l.drop a).take (b - a)

/-- The context window around block i used by the contact stage:
blocks[max(0,i-2):min(len(blocks),i+3)], joined after normalization and
lower-cased. -/
def contactContext (blocks : List TextBlock) (i : Nat) : String :=
  let context_blocks := pySlice blocks (i - 2) (min blocks.length (i + 3))
  lowerStr (joinSep " " (context_blocks.map (fun cb => norm cb.content)))

/-- One iteration of the email and phone loop. -/
def contactStep (blocks : List TextBlock) (dtype : String) (s : MapState)
    (p : Nat × TextBlock) : MapState :=
  let i := p.1
  let b := p.2
  let t := b.content
  if is_council_contact t then s
  else
    let s :=
      if !(hasKey s.fields "applicant_email") then
        match emailSearch t with
        | some m =>
          let confidence : ℚ :=
            if strContains (contactContext blocks i) "applicant" then mkRat 8 10 else mkRat 5 10
          writeFieldWithEv s "applicant_email" (FieldVal.str m) confidence
            b.page_number (blockIdOf b) t dtype
        | none => s
      else s
    if !(hasKey s.fields "applicant_phone") then
      match phoneSearch t with
      | some m1 =>
        if looks_like_phone m1 && (norm m1).data.length ≥ 9 then
          let confidence : ℚ :=
            if strContains (contactContext blocks i) "applicant" then mkRat 8 10 else mkRat 5 10
          writeFieldWithEv s "applicant_phone" (FieldVal.str (norm m1)) confidence
            b.page_number (blockIdOf b) t dtype
        else s
      | none => s
    else s

/-- The email and phone loop over the first 400 blocks, skipping
council-contact blocks. -/
def stage_contact (blocks : List TextBlock) (dtype : String) (s : MapState) :
    MapState :=
  ((blocks.take 400).enum).foldl (contactStep blocks dtype) s

/-- The state after the document_type assignment. -/
def stateAfterDoctype (blocks : List TextBlock) : MapState :=
  dictSet ⟨[], [], []⟩ "document_type" (FieldVal.str (classify_document blocks))

def stateAfterAppref (blocks : List TextBlock) : MapState :=
  stage_appref blocks (classify_document blocks) (stateAfterDoctype blocks)

def stateAfterSite (blocks : List TextBlock) : MapState :=
  stage_site_address blocks (classify_document blocks) (stateAfterAppref blocks)

def stateAfterProposed (blocks : List TextBlock) : MapState :=
  stage_proposed_use blocks (classify_document blocks) (stateAfterSite blocks)

def stateAfterLabels (blocks : List TextBlock) : MapState :=
  stage_labels blocks (classify_document blocks) (stateAfterProposed blocks)

def stateAfterPostcode (blocks : List TextBlock) : MapState :=
  stage_postcode blocks (classify_document blocks) (stateAfterLabels blocks)

/-- map_fields: the full orchestrator.  The result state carries the fields
dict and the evidence_index dict of the returned dictionary (plus the ghost
write log). -/
def map_fields (extracted_layout : ExtractedLayout) : MapState :=
  let blocks := extracted_layout.text_blocks.getD []
  stage_contact blocks (classify_document blocks) (stateAfterPostcode blocks)

/-! ## extract.py: extract_from_pdf_bytes (after the external layout
analysis has produced extraction_result) -/

/-- One value of the evidence_index built by extract_from_pdf_bytes: a
general text-block entry, a general table entry, or a field's evidence
list merged in from map_fields.  (The bounding_box of a text-block entry
is not modelled; nothing in the claims reads it.) -/
inductive EvIdxVal where
  | textBlockEv (content snippet : String) (page_number : Int)
  | tableEv (row_count column_count : Int) (page_number : Int) (snippet : String)
      (cells : List String)
  | fieldEv (entries : List EvidenceEntry)
deriving DecidableEq, Repr

/-- Dict assignment on the merged evidence index. -/
def dictSetEv (ei : List (String × EvIdxVal)) (k : String) (v : EvIdxVal) :
    List (String × EvIdxVal) :=
  if (ei.map Prod.fst).contains k then
    ei.map (fun p => if p.1 = k then (k, v) else p)
  else ei ++ [(k, v)]

/-- The part of the result of extract_from_pdf_bytes the claims are about
(metadata and page_anchors are passed through unchanged and not
modelled). -/
structure ExtractResult where
  fields : List (String × FieldVal)
  evidence_index : List (String × EvIdxVal)
  text_blocks : List TextBlock
deriving DecidableEq, Repr

/-- extract_from_pdf_bytes from the point where the external layout
analysis has returned extraction_result: map_fields runs first (line 182 of
extract.py); only afterwards does the loop over the text blocks assign
block["index"] = i (line 206), mutating the blocks that are returned in
the result. -/
def extract_from_pdf_bytes (extraction_result : ExtractedLayout) : ExtractResult :=
  let mapped := map_fields extraction_result
  let fields := mapped.fields
  let field_evidence := mapped.evidence
  let blocks := extraction_result.text_blocks.getD []
  let general : List (String × EvIdxVal) := (blocks.enum).map (fun p =>
    let i := p.1
    let block := p.2
    let content := block.content
    let snippet :=
      if content.data.length > 100 then String.mk (content.data.take 100) ++ "..."
      else content
    ("text_block_" ++ toString i, EvIdxVal.textBlockEv content snippet block.page_number))
  let blocksIndexed := (blocks.enum).map (fun p => { p.2 with index := some p.1 })
  let tablesEv : List (String × EvIdxVal) := (extraction_result.tables.enum).map (fun p =>
    let i := p.1
    let table := p.2
    let cell_snippets := ((table.cells.take 5).filter (fun c => c ≠ "")).map
      (fun c => String.mk (c.data.take 50))
    let snippet := if cell_snippets ≠ [] then joinSep " | " cell_snippets else ""
    ("table_" ++ toString i,
     EvIdxVal.tableEv table.row_count table.column_count table.page_number snippet
       table.cells))
  let evidence_index := general ++ tablesEv
  let evidence_index := field_evidence.foldl
    (fun ei fe => dictSetEv ei fe.1 (EvIdxVal.fieldEv fe.2)) evidence_index
  ⟨fields, evidence_index, blocksIndexed⟩

/-! ## Definitions used by the verification statements -/

/-- The base field names map_fields can populate besides document_type;
each is always written together with its parallel confidence entry and one
evidence entry. -/
def baseFields : List String :=
  ["application_ref", "site_address", "proposed_use", "proposal_description",
   "applicant_name", "agent_name", "postcode", "applicant_email", "applicant_phone"]

/-- The well-formedness invariant maintained by every stage of map_fields:
the ghost write log is duplicate-free and coincides with the keys of the
fields dict; every written key is document_type, a base field, or a base
field's confidence entry; base fields and their confidence entries are
written together; a written base field has a numeric confidence entry and
exactly one evidence entry carrying the same confidence; unwritten fields
have no evidence, and document_type never has evidence. -/
structure WFS (s : MapState) : Prop where
  nodup : s.writes.Nodup
  keys_iff : ∀ k, hasKey s.fields k = true ↔ k ∈ s.writes
  okKeys : ∀ k ∈ s.writes,
    k = "document_type" ∨ ∃ f ∈ baseFields, k = f ∨ k = f ++ "_confidence"
  pair : ∀ f ∈ baseFields, (f ∈ s.writes ↔ (f ++ "_confidence") ∈ s.writes)
  conf_ev : ∀ f ∈ baseFields, f ∈ s.writes →
    ∃ c, lookupF s.fields (f ++ "_confidence") = some (FieldVal.num c) ∧
      ∃ e, lookupEv s.evidence f = some [e] ∧ e.confidence = c
  ev_none : ∀ f, f ∉ s.writes → lookupEv s.evidence f = none
  dt_ev : lookupEv s.evidence "document_type" = none

/-- The acceptance condition of one block of the demolition-pattern loop:
the block triggers the scan, the regular expression matches, and the
assembled full address (stripped captured text, a comma separator, and the
upper-cased postcode) is longer than ten characters. -/
def demolitionAccepted (b : TextBlock) : Bool :=
  let t := norm b.content
  let tl := lowerStr t
  (strContains tl "demolition of" || strContains tl "demolition") &&
    (match demolitionSearch t with
     | some (g1, g2) =>
       (subTrailingCommaSpace (pyStrip g1) ++ ", " ++ upperStr g2).data.length > 10
     | none => false)

/-! Concrete inputs used by the individual claim theorems. -/

def c1blocks : List TextBlock :=
  [⟨"I/We hereby apply for Prior Approval: change of use to a single dwelling", 1, some 0⟩]

def c2layout : ExtractedLayout := ⟨some [⟨"PP-123456", 1, none⟩], []⟩

def c3blocks : List TextBlock := [⟨"Application Form existing proposed", 1, some 0⟩]

def c3wblocks : List TextBlock :=
  [⟨"application form planning application existing", 1, some 0⟩]

def c5blocks : List TextBlock :=
  [⟨"Site Location", 1, some 0⟩, ⟨"Address Line 1: 12 Example Street", 1, some 1⟩,
   ⟨"Postcode: B12 3CD", 1, some 2⟩]

def c6blocks : List TextBlock :=
  [⟨"PO Box 28 B1 1TU", 1, some 0⟩, ⟨"Postcode: B2 4QA", 1, some 1⟩]

def c6pen : PostcodeCandidate :=
  ⟨"B1 1TU", ⟨"PO Box 28 B1 1TU", 1, some 0⟩, mkRat 1 10, 0⟩

def c6good : PostcodeCandidate :=
  ⟨"B2 4QA", ⟨"Postcode: B2 4QA", 1, some 1⟩, mkRat 9 10, 1⟩

def c7block : TextBlock := ⟨"demolition of 123 B8 1BG", 1, some 0⟩

def c10blocks : List TextBlock := [⟨"PP-123456", 1, some 0⟩]

def blankBlock : TextBlock := ⟨"", 1, some 0⟩

def agentBlock : TextBlock := ⟨"Agent name: John", 1, some 400⟩

def c9A : List TextBlock := List.replicate 400 blankBlock ++ [agentBlock]

def c9B : List TextBlock := List.replicate 400 blankBlock

def c9wBlock : TextBlock := ⟨"B1 2CD", 1, some 402⟩

def c9wA : List TextBlock := List.replicate 402 blankBlock ++ [c9wBlock]

def c9wB : List TextBlock := List.replicate 402 blankBlock

/-! ## Helper lemmas about association lists and the write primitives -/

theorem hasKey_iff_mem (fields : List (String × FieldVal)) (k : String) :
    hasKey fields k = true ↔ k ∈ fields.map Prod.fst := by
  simp [hasKey, keysOf]

theorem hasKey_false_iff (fields : List (String × FieldVal)) (k : String) :
    hasKey fields k = false ↔ k ∉ fields.map Prod.fst := by
  rw [← hasKey_iff_mem]
  cases h : hasKey fields k <;> simp

theorem lookup_none_of_not_mem {β : Type} (l : List (String × β)) (k : String)
    (h : k ∉ l.map Prod.fst) : List.lookup k l = none := by
  rw [List.lookup_eq_none_iff]
  intro p hp
  simp only [bne_iff_ne, ne_eq]
  intro hk
  exact h (hk ▸ List.mem_map_of_mem Prod.fst hp)

theorem not_mem_of_lookup_none {β : Type} (l : List (String × β)) (k : String)
    (h : List.lookup k l = none) : k ∉ l.map Prod.fst := by
  rw [List.lookup_eq_none_iff] at h
  intro hmem
  obtain ⟨p, hp, hfst⟩ := List.mem_map.mp hmem
  have := h p hp
  simp [bne_iff_ne] at this
  exact this hfst.symm

theorem lookupF_eq_none_of_hasKey_false (fields : List (String × FieldVal))
    (k : String) (h : hasKey fields k = false) : lookupF fields k = none :=
  lookup_none_of_not_mem fields k ((hasKey_false_iff fields k).mp h)

theorem lookup_append_ne_single {β : Type} (l : List (String × β)) (k k' : String)
    (v : β) (h : k' ≠ k) :
    List.lookup k' (l ++ [(k, v)]) = List.lookup k' l := by
  rw [List.lookup_append]
  have hbeq : (k' == k) = false := beq_eq_false_iff_ne.mpr h
  have h1 : List.lookup k' [(k, v)] = none := by
    simp [List.lookup, hbeq]
  rw [h1]
  cases List.lookup k' l <;> rfl

theorem lookup_append_self_single {β : Type} (l : List (String × β)) (k : String)
    (v : β) (h : List.lookup k l = none) :
    List.lookup k (l ++ [(k, v)]) = some v := by
  rw [List.lookup_append, h]
  simp

theorem lookup_update_ne {β : Type} (l : List (String × β)) (k k' : String) (v : β)
    (h : k' ≠ k) :
    List.lookup k' (l.map (fun p => if p.1 = k then (k, v) else p)) =
      List.lookup k' l := by
  induction l with
  | nil => simp
  | cons p rest ih =>
    obtain ⟨a, b⟩ := p
    by_cases ha : a = k
    · have hbeq : (k' == a) = false :=
        beq_eq_false_iff_ne.mpr (fun he => h (he.trans ha))
      have hbeq2 : (k' == k) = false := beq_eq_false_iff_ne.mpr h
      rw [List.map_cons, if_pos ha]
      simp [List.lookup, hbeq, hbeq2, ih]
    · rw [List.map_cons, if_neg ha]
      by_cases hk : k' = a
      · have hbeq : (k' == a) = true := beq_iff_eq.mpr hk
        simp [List.lookup, hbeq]
      · have hbeq : (k' == a) = false := beq_eq_false_iff_ne.mpr hk
        simp [List.lookup, hbeq, ih]

theorem lookup_mapValueAt_ne {β : Type} (l : List (String × β)) (k k' : String)
    (f : β → β) (h : k' ≠ k) :
    List.lookup k' (l.map (fun p => if p.1 = k then (p.1, f p.2) else p)) =
      List.lookup k' l := by
  induction l with
  | nil => simp
  | cons p rest ih =>
    obtain ⟨a, b⟩ := p
    by_cases hk : k' = a
    · have hbeq : (k' == a) = true := beq_iff_eq.mpr hk
      by_cases ha : a = k
      · exact absurd (hk.trans ha) h
      · rw [List.map_cons, if_neg ha]
        simp [List.lookup, hbeq]
    · have hbeq : (k' == a) = false := beq_eq_false_iff_ne.mpr hk
      by_cases ha : a = k
      · rw [List.map_cons, if_pos ha]
        simp [List.lookup, hbeq, ih]
      · rw [List.map_cons, if_neg ha]
        simp [List.lookup, hbeq, ih]

/-- dictSet on a fresh key appends. -/
theorem dictSet_fields_fresh (s : MapState) (k : String) (v : FieldVal)
    (h : hasKey s.fields k = false) :
    (dictSet s k v).fields = s.fields ++ [(k, v)] := by
  simp [dictSet, h]

theorem dictSet_writes (s : MapState) (k : String) (v : FieldVal) :
    (dictSet s k v).writes = s.writes ++ [k] := rfl

theorem dictSet_evidence (s : MapState) (k : String) (v : FieldVal) :
    (dictSet s k v).evidence = s.evidence := rfl

theorem lookup_dictSet_ne (s : MapState) (k k' : String) (v : FieldVal)
    (h : k' ≠ k) : lookupF (dictSet s k v).fields k' = lookupF s.fields k' := by
  by_cases hk : hasKey s.fields k
  · simp only [dictSet, hk, if_true]
    exact lookup_update_ne s.fields k k' v h
  · rw [dictSet_fields_fresh s k v (by simpa using hk)]
    exact lookup_append_ne_single s.fields k k' v h

theorem lookup_dictSet_self_fresh (s : MapState) (k : String) (v : FieldVal)
    (h : hasKey s.fields k = false) :
    lookupF (dictSet s k v).fields k = some v := by
  rw [dictSet_fields_fresh s k v h]
  exact lookup_append_self_single s.fields k v
    (lookupF_eq_none_of_hasKey_false s.fields k h)

theorem hasKey_dictSet (s : MapState) (k k' : String) (v : FieldVal) :
    hasKey (dictSet s k v).fields k' = (hasKey s.fields k' || k' = k) := by
  by_cases hk : hasKey s.fields k
  · have hmap : ((dictSet s k v).fields).map Prod.fst = s.fields.map Prod.fst := by
      simp only [dictSet, hk, if_true, List.map_map]
      apply List.map_congr_left
      intro p _
      by_cases hp : p.1 = k <;> simp [Function.comp, hp]
    by_cases h' : hasKey s.fields k'
    · have : hasKey (dictSet s k v).fields k' = true := by
        rw [hasKey_iff_mem, hmap]
        exact (hasKey_iff_mem s.fields k').mp h'
      simp [this, h']
    · by_cases hkk : k' = k
      · subst hkk
        simp [h', hk] at *
      · have : hasKey (dictSet s k v).fields k' = false := by
          rw [hasKey_false_iff, hmap]
          exact (hasKey_false_iff s.fields k').mp (by simpa using h')
        simp [this, h', hkk]
  · rw [dictSet_fields_fresh s k v (by simpa using hk)]
    simp only [hasKey, keysOf, List.map_append, List.contains, List.elem_eq_mem,
      List.mem_append]
    by_cases hkk : k' = k <;> simp [hkk]

theorem hasKey_dictSet_self (s : MapState) (k : String) (v : FieldVal) :
    hasKey (dictSet s k v).fields k = true := by
  simp [hasKey_dictSet]

/-- add_ev on a key with no evidence yet appends a singleton list. -/
theorem add_ev_fresh (ev : List (String × List EvidenceEntry)) (field : String)
    (page : Int) (bid snip : String) (c : ℚ) (d : Option String)
    (h : List.lookup field ev = none) :
    add_ev ev field page bid snip c d =
      ev ++ [(field, [⟨page, bid, String.mk ((norm snip).data.take 240), c, d⟩])] := by
  have hmem := not_mem_of_lookup_none ev field h
  have hc : (ev.map Prod.fst).contains field = false := by
    simpa using hmem
  unfold add_ev
  rw [hc]
  simp

theorem lookupEv_addEvS_ne (s : MapState) (field g : String) (page : Int)
    (bid snip : String) (c : ℚ) (d : Option String) (h : g ≠ field) :
    lookupEv (addEvS s field page bid snip c d).evidence g = lookupEv s.evidence g := by
  unfold addEvS add_ev lookupEv
  by_cases hc : (s.evidence.map Prod.fst).contains field
  · simp only [hc, if_true]
    exact lookup_mapValueAt_ne s.evidence field g (fun v => v ++ [_]) h
  · simp only [hc, if_false]
    exact lookup_append_ne_single s.evidence field g _ h

theorem lookupEv_addEvS_self_fresh (s : MapState) (field : String) (page : Int)
    (bid snip : String) (c : ℚ) (d : Option String)
    (h : lookupEv s.evidence field = none) :
    lookupEv (addEvS s field page bid snip c d).evidence field =
      some [⟨page, bid, String.mk ((norm snip).data.take 240), c, d⟩] := by
  unfold addEvS lookupEv
  rw [add_ev_fresh s.evidence field page bid snip c d h]
  exact lookup_append_self_single s.evidence field _ h

theorem addEvS_fields (s : MapState) (field : String) (page : Int)
    (bid snip : String) (c : ℚ) (d : Option String) :
    (addEvS s field page bid snip c d).fields = s.fields := rfl

theorem addEvS_writes (s : MapState) (field : String) (page : Int)
    (bid snip : String) (c : ℚ) (d : Option String) :
    (addEvS s field page bid snip c d).writes = s.writes := rfl

/-! ## Facts about the composite write and the well-formedness invariant -/

theorem hasKey_append (l1 l2 : List (String × FieldVal)) (k : String) :
    hasKey (l1 ++ l2) k = (hasKey l1 k || hasKey l2 k) := by
  by_cases h1 : k ∈ l1.map Prod.fst <;> by_cases h2 : k ∈ l2.map Prod.fst <;>
    simp [hasKey, keysOf, List.map_append, List.contains, List.elem_eq_mem,
      List.mem_append, h1, h2]

theorem writeFieldWithEv_writes (s : MapState) (f : String) (v : FieldVal) (c : ℚ)
    (page : Int) (bid snip dtype : String) :
    (writeFieldWithEv s f v c page bid snip dtype).writes =
      s.writes ++ [f, f ++ "_confidence"] := by
  simp [writeFieldWithEv, dictSet_writes, addEvS_writes]

theorem writeFieldWithEv_fields (s : MapState) (f : String) (v : FieldVal) (c : ℚ)
    (page : Int) (bid snip dtype : String) (h : hasKey s.fields f = false)
    (h2 : hasKey s.fields (f ++ "_confidence") = false)
    (hne : f ++ "_confidence" ≠ f) :
    (writeFieldWithEv s f v c page bid snip dtype).fields =
      s.fields ++ [(f, v), (f ++ "_confidence", FieldVal.num c)] := by
  unfold writeFieldWithEv addEvS
  simp only [dictSet_fields_fresh s f v h]
  have hk2 : hasKey (dictSet s f v).fields (f ++ "_confidence") = false := by
    rw [dictSet_fields_fresh s f v h, hasKey_append]
    simp only [h2, Bool.false_or]
    simp [hasKey, keysOf, hne]
  rw [dictSet_fields_fresh _ _ _ hk2, dictSet_fields_fresh s f v h]
  simp

theorem lookup_writeFieldWithEv_ne (s : MapState) (f : String) (v : FieldVal)
    (c : ℚ) (page : Int) (bid snip dtype : String) (k : String)
    (h1 : k ≠ f) (h2 : k ≠ f ++ "_confidence") :
    lookupF (writeFieldWithEv s f v c page bid snip dtype).fields k =
      lookupF s.fields k := by
  unfold writeFieldWithEv addEvS
  show lookupF (dictSet (dictSet s f v) (f ++ "_confidence") (FieldVal.num c)).fields k = _
  rw [lookup_dictSet_ne _ _ _ _ h2, lookup_dictSet_ne _ _ _ _ h1]

theorem lookupEv_writeFieldWithEv_ne (s : MapState) (f : String) (v : FieldVal)
    (c : ℚ) (page : Int) (bid snip dtype : String) (k : String) (h1 : k ≠ f) :
    lookupEv (writeFieldWithEv s f v c page bid snip dtype).evidence k =
      lookupEv s.evidence k := by
  unfold writeFieldWithEv
  rw [lookupEv_addEvS_ne _ _ _ _ _ _ _ _ h1]
  rfl

/-! Decidable string facts about the fixed field-name vocabulary. -/

theorem dt_not_base : "document_type" ∉ baseFields := by decide

theorem base_ne_conf : ∀ f ∈ baseFields, ∀ g ∈ baseFields, f ≠ g ++ "_confidence" := by
  decide

theorem base_conf_inj : ∀ f ∈ baseFields, ∀ g ∈ baseFields,
    f ++ "_confidence" = g ++ "_confidence" → f = g := by decide

theorem conf_ne_self : ∀ f ∈ baseFields, f ++ "_confidence" ≠ f := by decide

theorem conf_ne_dt : ∀ f ∈ baseFields, f ++ "_confidence" ≠ "document_type" := by
  decide

/-- The composite write of a fresh base field preserves the invariant. -/
theorem writeFieldWithEv_WFS (s : MapState) (f : String) (v : FieldVal) (c : ℚ)
    (page : Int) (bid snip dtype : String)
    (hf : f ∈ baseFields) (hnot : f ∉ s.writes) (h : WFS s) :
    WFS (writeFieldWithEv s f v c page bid snip dtype) := by
  have hkey : hasKey s.fields f = false := by
    cases hx : hasKey s.fields f
    · rfl
    · exact absurd ((h.keys_iff f).mp hx) hnot
  have hconf_not : (f ++ "_confidence") ∉ s.writes := fun hc =>
    hnot ((h.pair f hf).mpr hc)
  have hkey2 : hasKey s.fields (f ++ "_confidence") = false := by
    cases hx : hasKey s.fields (f ++ "_confidence")
    · rfl
    · exact absurd ((h.keys_iff _).mp hx) hconf_not
  have hne : f ++ "_confidence" ≠ f := conf_ne_self f hf
  have hW := writeFieldWithEv_writes s f v c page bid snip dtype
  have hF := writeFieldWithEv_fields s f v c page bid snip dtype hkey hkey2 hne
  have hevf : lookupEv s.evidence f = none := h.ev_none f hnot
  have hfne_dt : f ≠ "document_type" := fun he => dt_not_base (he ▸ hf)
  have hev' : ∀ k, k ≠ f →
      lookupEv (writeFieldWithEv s f v c page bid snip dtype).evidence k =
        lookupEv s.evidence k := fun k hk =>
    lookupEv_writeFieldWithEv_ne s f v c page bid snip dtype k hk
  constructor
  · rw [hW]
    refine List.Nodup.append h.nodup ?_ ?_
    · simp [List.nodup_cons]
      exact fun he => hne he.symm
    · intro a ha hb
      simp only [List.mem_cons, List.mem_singleton, List.not_mem_nil, or_false] at hb
      rcases hb with rfl | rfl
      · exact hnot ha
      · exact hconf_not ha
  · intro k
    rw [hW, hF, hasKey_append]
    have hk2 : hasKey [(f, v), (f ++ "_confidence", FieldVal.num c)] k =
        (decide (k = f) || decide (k = f ++ "_confidence")) := by
      simp [hasKey, keysOf]
    rw [hk2]
    simp only [Bool.or_eq_true, decide_eq_true_eq, List.mem_append, List.mem_cons,
      List.mem_singleton, List.not_mem_nil, or_false]
    rw [h.keys_iff k]
  · intro k hk
    rw [hW] at hk
    rcases List.mem_append.mp hk with hk | hk
    · exact h.okKeys k hk
    · simp only [List.mem_cons, List.not_mem_nil, or_false] at hk
      rcases hk with hk | hk
      · exact Or.inr ⟨f, hf, Or.inl hk⟩
      · exact Or.inr ⟨f, hf, Or.inr hk⟩
  · intro g hg
    rw [hW]
    simp only [List.mem_append, List.mem_cons, List.not_mem_nil, or_false]
    constructor
    · intro hgw
      rcases hgw with hgw | hgw | hgw
      · exact Or.inl ((h.pair g hg).mp hgw)
      · subst hgw; exact Or.inr (Or.inr rfl)
      · exact absurd hgw (base_ne_conf g hg f hf)
    · intro hgc
      rcases hgc with hgc | hgc | hgc
      · exact Or.inl ((h.pair g hg).mpr hgc)
      · exact absurd hgc.symm (base_ne_conf f hf g hg)
      · have := base_conf_inj g hg f hf hgc
        subst this; exact Or.inr (Or.inl rfl)
  · intro g hg hgw
    rw [hW] at hgw
    simp only [List.mem_append, List.mem_cons, List.not_mem_nil, or_false] at hgw
    by_cases hgf : g = f
    · subst hgf
      refine ⟨c, ?_, ?_⟩
      · rw [hF]
        have hn : List.lookup (g ++ "_confidence") s.fields = none :=
          lookupF_eq_none_of_hasKey_false s.fields _ hkey2
        unfold lookupF
        rw [List.lookup_append, hn]
        have hbeq : ((g ++ "_confidence") == g) = false := beq_eq_false_iff_ne.mpr hne
        simp [List.lookup, hbeq]
      · refine ⟨⟨page, bid, String.mk ((norm snip).data.take 240), c, some dtype⟩, ?_, rfl⟩
        unfold writeFieldWithEv
        exact lookupEv_addEvS_self_fresh _ g page bid snip c (some dtype) hevf
    · have hgw' : g ∈ s.writes := by
        rcases hgw with hgw | hgw | hgw
        · exact hgw
        · exact absurd hgw hgf
        · exact absurd hgw (base_ne_conf g hg f hf)
      obtain ⟨c', hc', e, he, hec⟩ := h.conf_ev g hg hgw'
      have hgc_ne_f : g ++ "_confidence" ≠ f := fun hx =>
        (base_ne_conf f hf g hg) hx.symm
      have hgc_ne_fc : g ++ "_confidence" ≠ f ++ "_confidence" := fun hx =>
        hgf (base_conf_inj g hg f hf hx)
      refine ⟨c', ?_, e, ?_, hec⟩
      · rw [lookup_writeFieldWithEv_ne s f v c page bid snip dtype _ hgc_ne_f hgc_ne_fc]
        exact hc'
      · rw [hev' g hgf]
        exact he
  · intro k hk
    rw [hW] at hk
    simp only [List.mem_append, List.mem_cons, List.not_mem_nil, or_false, not_or] at hk
    obtain ⟨hk1, hk2', hk3⟩ := hk
    rw [hev' k hk2']
    exact h.ev_none k hk1
  · rw [ hev' "document_type" (fun he => hfne_dt he.symm)]
    exact h.dt_ev

theorem WFS_stateAfterDoctype (blocks : List TextBlock) :
    WFS (stateAfterDoctype blocks) := by
  refine ⟨?_, ?_, ?_, ?_, ?_, ?_, ?_⟩
  · simp [stateAfterDoctype, dictSet]
  · intro k
    simp [stateAfterDoctype, dictSet, hasKey, keysOf]
  · intro k hk
    simp only [stateAfterDoctype, dictSet] at hk
    simp only [List.nil_append, List.mem_singleton] at hk
    exact Or.inl hk
  · intro f hf
    have h1 : f ≠ "document_type" := fun he => dt_not_base (he ▸ hf)
    have h2 : f ++ "_confidence" ≠ "document_type" := conf_ne_dt f hf
    simp [stateAfterDoctype, dictSet, h1, h2]
  · intro f hf hw
    simp only [stateAfterDoctype, dictSet, List.nil_append, List.mem_singleton] at hw
    exact absurd (hw ▸ hf) dt_not_base
  · intro k _
    simp [stateAfterDoctype, dictSet, lookupEv]
  · simp [stateAfterDoctype, dictSet, lookupEv]

theorem WFS_stage_appref_aux (dtype : String) (l : List TextBlock) (s : MapState)
    (h : WFS s) (hnot : "application_ref" ∉ s.writes) :
    WFS (stage_appref_aux dtype l s) := by
  induction l with
  | nil => exact h
  | cons b rest ih =>
    simp only [stage_appref_aux]
    split
    · exact writeFieldWithEv_WFS _ _ _ _ _ _ _ _ (by decide) hnot h
    · exact ih

theorem WFS_stage_appref (blocks : List TextBlock) (dtype : String) (s : MapState)
    (h : WFS s) (hnot : "application_ref" ∉ s.writes) :
    WFS (stage_appref blocks dtype s) :=
  WFS_stage_appref_aux dtype (blocks.take 400) s h hnot

theorem WFS_stage_site_address (blocks : List TextBlock) (dtype : String)
    (s : MapState) (h : WFS s) : WFS (stage_site_address blocks dtype s) := by
  unfold stage_site_address
  dsimp only
  split
  · exact h
  next hk =>
    have hnot : "site_address" ∉ s.writes := fun hw => hk ((h.keys_iff _).mpr hw)
    split
    · split
      · exact writeFieldWithEv_WFS _ _ _ _ _ _ _ _ (by decide) hnot h
      · exact h
    · exact h

theorem WFS_stage_proposed_prior_aux (dtype : String) (l : List TextBlock)
    (s : MapState) (h : WFS s) (hnot : "proposed_use" ∉ s.writes) :
    WFS (stage_proposed_prior_aux dtype l s) := by
  induction l with
  | nil => exact h
  | cons b rest ih =>
    simp only [stage_proposed_prior_aux]
    split
    · split
      · split
        · exact writeFieldWithEv_WFS _ _ _ _ _ _ _ _ (by decide) hnot h
        · exact ih
      · exact ih
    · exact ih

theorem WFS_stage_proposed_use (blocks : List TextBlock) (dtype : String)
    (s : MapState) (h : WFS s) : WFS (stage_proposed_use blocks dtype s) := by
  unfold stage_proposed_use
  dsimp only
  split
  · exact h
  next hk1 =>
    have hnot : "proposed_use" ∉ s.writes := fun hw => hk1 ((h.keys_iff _).mpr hw)
    have h2 := WFS_stage_proposed_prior_aux dtype (blocks.take 100) s h hnot
    split
    · exact h2
    next hk2 =>
      have hnot2 : "proposed_use" ∉ (stage_proposed_prior_aux dtype (blocks.take 100) s).writes :=
        fun hw => hk2 ((h2.keys_iff _).mpr hw)
      split
      · split
        · exact writeFieldWithEv_WFS _ _ _ _ _ _ _ _ (by decide) hnot2 h2
        · exact h2
      · exact h2

theorem WFS_labelStep (blocks : List TextBlock) (dtype : String) (s : MapState)
    (fp : String × List String) (h : WFS s) (hfp : fp.1 ∈ baseFields) :
    WFS (labelStep blocks dtype s fp) := by
  unfold labelStep
  split
  · exact h
  next hk =>
    split
    · split
      · exact writeFieldWithEv_WFS _ _ _ _ _ _ _ _ hfp
          (fun hw => hk ((h.keys_iff _).mpr hw)) h
      · exact h
    · exact h

theorem WFS_labels_fold (blocks : List TextBlock) (dtype : String) :
    ∀ (l : List (String × List String)) (s : MapState),
      (∀ fp ∈ l, fp.1 ∈ baseFields) → WFS s →
      WFS (l.foldl (labelStep blocks dtype) s)
  | [], s, _, h => h
  | fp :: rest, s, hmem, h => by
    rw [List.foldl_cons]
    exact WFS_labels_fold blocks dtype rest _
      (fun q hq => hmem q (List.mem_cons_of_mem fp hq))
      (WFS_labelStep blocks dtype s fp h (hmem fp (List.mem_cons_self fp rest)))

theorem WFS_stage_labels (blocks : List TextBlock) (dtype : String) (s : MapState)
    (h : WFS s) : WFS (stage_labels blocks dtype s) :=
  WFS_labels_fold blocks dtype LABEL_PATTERNS s (by decide) h

theorem WFS_stage_postcode (blocks : List TextBlock) (dtype : String) (s : MapState)
    (h : WFS s) : WFS (stage_postcode blocks dtype s) := by
  unfold stage_postcode
  dsimp only
  split
  next hc =>
    have hkey : "postcode" ∉ s.writes := by
      have := (Bool.and_eq_true _ _).mp hc
      intro hw
      have hk := (h.keys_iff "postcode").mpr hw
      rw [hk] at this
      simp at this
    split
    · split
      · exact writeFieldWithEv_WFS _ _ _ _ _ _ _ _ (by decide) hkey h
      · exact h
    · exact h
  · exact h

theorem WFS_contactStep (blocks : List TextBlock) (dtype : String) (s : MapState)
    (p : Nat × TextBlock) (h : WFS s) : WFS (contactStep blocks dtype s p) := by
  unfold contactStep
  dsimp only
  split
  · exact h
  · have h1 : WFS (if !(hasKey s.fields "applicant_email") then
        match emailSearch p.2.content with
        | some m =>
          writeFieldWithEv s "applicant_email" (FieldVal.str m)
            (if strContains (contactContext blocks p.1) "applicant" then mkRat 8 10
             else mkRat 5 10) p.2.page_number (blockIdOf p.2) p.2.content dtype
        | none => s
      else s) := by
      split
      next hk =>
        have hnot : "applicant_email" ∉ s.writes := fun hw => by
          rw [(h.keys_iff _).mpr hw] at hk
          simp at hk
        split
        · exact writeFieldWithEv_WFS _ _ _ _ _ _ _ _ (by decide) hnot h
        · exact h
      · exact h
    set s1 := (if !(hasKey s.fields "applicant_email") then
        match emailSearch p.2.content with
        | some m =>
          writeFieldWithEv s "applicant_email" (FieldVal.str m)
            (if strContains (contactContext blocks p.1) "applicant" then mkRat 8 10
             else mkRat 5 10) p.2.page_number (blockIdOf p.2) p.2.content dtype
        | none => s
      else s) with hs1
    split
    next hk =>
      have hnot : "applicant_phone" ∉ s1.writes := fun hw => by
        rw [(h1.keys_iff _).mpr hw] at hk
        simp at hk
      split
      · split
        · exact writeFieldWithEv_WFS _ _ _ _ _ _ _ _ (by decide) hnot h1
        · exact h1
      · exact h1
    · exact h1

theorem WFS_contact_fold (blocks : List TextBlock) (dtype : String) :
    ∀ (l : List (Nat × TextBlock)) (s : MapState), WFS s →
      WFS (l.foldl (contactStep blocks dtype) s)
  | [], s, h => h
  | p :: rest, s, h => by
    rw [List.foldl_cons]
    exact WFS_contact_fold blocks dtype rest _ (WFS_contactStep blocks dtype s p h)

theorem WFS_stage_contact (blocks : List TextBlock) (dtype : String) (s : MapState)
    (h : WFS s) : WFS (stage_contact blocks dtype s) :=
  WFS_contact_fold blocks dtype _ s h

/-- Every map_fields result satisfies the well-formedness invariant. -/
theorem WFS_map_fields (layout : ExtractedLayout) : WFS (map_fields layout) := by
  unfold map_fields
  apply WFS_stage_contact
  unfold stateAfterPostcode
  apply WFS_stage_postcode
  unfold stateAfterLabels
  apply WFS_stage_labels
  unfold stateAfterProposed
  apply WFS_stage_proposed_use
  unfold stateAfterSite
  apply WFS_stage_site_address
  unfold stateAfterAppref
  apply WFS_stage_appref
  · exact WFS_stateAfterDoctype _
  · show "application_ref" ∉ (stateAfterDoctype _).writes
    simp [stateAfterDoctype, dictSet]

/-! ## Which keys each stage can write -/

theorem mem_writes_writeFieldWithEv (s : MapState) (f : String) (v : FieldVal)
    (c : ℚ) (page : Int) (bid snip dtype k : String)
    (hk : k ∈ (writeFieldWithEv s f v c page bid snip dtype).writes) :
    k ∈ s.writes ∨ k = f ∨ k = f ++ "_confidence" := by
  rw [writeFieldWithEv_writes] at hk
  simpa using hk

theorem writes_stage_appref_aux (dtype : String) (l : List TextBlock) :
    ∀ (s : MapState) (k : String), k ∈ (stage_appref_aux dtype l s).writes →
      k ∈ s.writes ∨ k = "application_ref" ∨ k = "application_ref_confidence" := by
  induction l with
  | nil => intro s k hk; exact Or.inl hk
  | cons b rest ih =>
    intro s k
    simp only [stage_appref_aux]
    split
    · exact fun hk => mem_writes_writeFieldWithEv _ _ _ _ _ _ _ _ _ hk
    · exact ih s k

theorem writes_stage_site_address (blocks : List TextBlock) (dtype : String)
    (s : MapState) (k : String) (hk : k ∈ (stage_site_address blocks dtype s).writes) :
    k ∈ s.writes ∨ k = "site_address" ∨ k = "site_address_confidence" := by
  unfold stage_site_address at hk
  dsimp only at hk
  split at hk
  · exact Or.inl hk
  · split at hk
    · split at hk
      · exact mem_writes_writeFieldWithEv _ _ _ _ _ _ _ _ _ hk
      · exact Or.inl hk
    · exact Or.inl hk

theorem writes_stage_proposed_prior_aux (dtype : String) (l : List TextBlock) :
    ∀ (s : MapState) (k : String), k ∈ (stage_proposed_prior_aux dtype l s).writes →
      k ∈ s.writes ∨ k = "proposed_use" ∨ k = "proposed_use_confidence" := by
  induction l with
  | nil => intro s k hk; exact Or.inl hk
  | cons b rest ih =>
    intro s k
    simp only [stage_proposed_prior_aux]
    split
    · split
      · split
        · exact fun hk => mem_writes_writeFieldWithEv _ _ _ _ _ _ _ _ _ hk
        · exact ih s k
      · exact ih s k
    · exact ih s k

theorem writes_stage_proposed_use (blocks : List TextBlock) (dtype : String)
    (s : MapState) (k : String)
    (hk : k ∈ (stage_proposed_use blocks dtype s).writes) :
    k ∈ s.writes ∨ k = "proposed_use" ∨ k = "proposed_use_confidence" := by
  unfold stage_proposed_use at hk
  dsimp only at hk
  split at hk
  · exact Or.inl hk
  · split at hk
    · exact writes_stage_proposed_prior_aux dtype (blocks.take 100) s k hk
    · split at hk
      · split at hk
        · rcases mem_writes_writeFieldWithEv _ _ _ _ _ _ _ _ _ hk with hw | hw | hw
          · exact writes_stage_proposed_prior_aux dtype (blocks.take 100) s k hw
          · exact Or.inr (Or.inl hw)
          · exact Or.inr (Or.inr hw)
        · exact writes_stage_proposed_prior_aux dtype (blocks.take 100) s k hk
      · exact writes_stage_proposed_prior_aux dtype (blocks.take 100) s k hk

theorem writes_labelStep (blocks : List TextBlock) (dtype : String) (s : MapState)
    (fp : String × List String) (k : String)
    (hk : k ∈ (labelStep blocks dtype s fp).writes) :
    k ∈ s.writes ∨ k = fp.1 ∨ k = fp.1 ++ "_confidence" := by
  unfold labelStep at hk
  split at hk
  · exact Or.inl hk
  · split at hk
    · split at hk
      · exact mem_writes_writeFieldWithEv _ _ _ _ _ _ _ _ _ hk
      · exact Or.inl hk
    · exact Or.inl hk

theorem writes_labels_fold (blocks : List TextBlock) (dtype : String) :
    ∀ (l : List (String × List String)) (s : MapState) (k : String),
      k ∈ (l.foldl (labelStep blocks dtype) s).writes →
      k ∈ s.writes ∨ ∃ fp ∈ l, k = fp.1 ∨ k = fp.1 ++ "_confidence" := by
  intro l
  induction l with
  | nil => intro s k hk; exact Or.inl hk
  | cons fp rest ih =>
    intro s k hk
    rw [List.foldl_cons] at hk
    rcases ih _ k hk with hw | ⟨q, hq, hw⟩
    · rcases writes_labelStep blocks dtype s fp k hw with hw' | hw' | hw'
      · exact Or.inl hw'
      · exact Or.inr ⟨fp, List.mem_cons_self fp rest, Or.inl hw'⟩
      · exact Or.inr ⟨fp, List.mem_cons_self fp rest, Or.inr hw'⟩
    · exact Or.inr ⟨q, List.mem_cons_of_mem fp hq, hw⟩

/-- The postcode key is never written before the postcode stage. -/
theorem postcode_not_written_before (blocks : List TextBlock) :
    "postcode" ∉ (stateAfterLabels blocks).writes := by
  intro hk
  unfold stateAfterLabels stage_labels at hk
  rcases writes_labels_fold blocks _ LABEL_PATTERNS _ _ hk with hw | ⟨fp, hfp, hw⟩
  · unfold stateAfterProposed at hw
    rcases writes_stage_proposed_use blocks _ _ _ hw with hw | hw | hw
    · unfold stateAfterSite at hw
      rcases writes_stage_site_address blocks _ _ _ hw with hw | hw | hw
      · unfold stateAfterAppref stage_appref at hw
        rcases writes_stage_appref_aux _ _ _ _ hw with hw | hw | hw
        · simp [stateAfterDoctype, dictSet] at hw
        · exact absurd hw (by decide)
        · exact absurd hw (by decide)
      · exact absurd hw (by decide)
      · exact absurd hw (by decide)
    · exact absurd hw (by decide)
    · exact absurd hw (by decide)
  · revert hw
    have : fp ∈ LABEL_PATTERNS → "postcode" ≠ fp.1 ∧ "postcode" ≠ fp.1 ++ "_confidence" := by
      revert fp
      decide
    intro hw
    rcases hw with hw | hw
    · exact (this hfp).1 hw
    · exact (this hfp).2 hw

/-! ## Lookup preservation through the contact stage -/

theorem lookup_contactStep_pres (blocks : List TextBlock) (dtype : String)
    (s : MapState) (p : Nat × TextBlock) (k : String)
    (h1 : k ≠ "applicant_email") (h2 : k ≠ "applicant_email_confidence")
    (h3 : k ≠ "applicant_phone") (h4 : k ≠ "applicant_phone_confidence") :
    lookupF (contactStep blocks dtype s p).fields k = lookupF s.fields k := by
  unfold contactStep
  dsimp only
  split
  · rfl
  · have hemail : ∀ (s' : MapState), lookupF (if !(hasKey s'.fields "applicant_email") then
        match emailSearch p.2.content with
        | some m =>
          writeFieldWithEv s' "applicant_email" (FieldVal.str m)
            (if strContains (contactContext blocks p.1) "applicant" then mkRat 8 10
             else mkRat 5 10) p.2.page_number (blockIdOf p.2) p.2.content dtype
        | none => s'
      else s').fields k = lookupF s'.fields k := by
      intro s'
      split
      · split
        · exact lookup_writeFieldWithEv_ne _ _ _ _ _ _ _ _ _ h1 h2
        · rfl
      · rfl
    have hphone : ∀ (s' : MapState), lookupF (if !(hasKey s'.fields "applicant_phone") then
        match phoneSearch p.2.content with
        | some m1 =>
          if looks_like_phone m1 && (norm m1).data.length ≥ 9 then
            writeFieldWithEv s' "applicant_phone" (FieldVal.str (norm m1))
              (if strContains (contactContext blocks p.1) "applicant" then mkRat 8 10
               else mkRat 5 10) p.2.page_number (blockIdOf p.2) p.2.content dtype
          else s'
        | none => s'
      else s').fields k = lookupF s'.fields k := by
      intro s'
      split
      · split
        · split
          · exact lookup_writeFieldWithEv_ne _ _ _ _ _ _ _ _ _ h3 h4
          · rfl
        · rfl
      · rfl
    rw [hphone, hemail]

theorem lookup_contact_fold_pres (blocks : List TextBlock) (dtype : String)
    (k : String)
    (h1 : k ≠ "applicant_email") (h2 : k ≠ "applicant_email_confidence")
    (h3 : k ≠ "applicant_phone") (h4 : k ≠ "applicant_phone_confidence") :
    ∀ (l : List (Nat × TextBlock)) (s : MapState),
      lookupF (l.foldl (contactStep blocks dtype) s).fields k = lookupF s.fields k
  | [], s => rfl
  | p :: rest, s => by
    rw [List.foldl_cons,
      lookup_contact_fold_pres blocks dtype k h1 h2 h3 h4 rest _,
      lookup_contactStep_pres blocks dtype s p k h1 h2 h3 h4]

/-! ## The stable sort by descending confidence -/

instance : IsTotal PostcodeCandidate (fun a b => b.conf ≤ a.conf) :=
  ⟨fun a b => le_total b.conf a.conf⟩

instance : IsTrans PostcodeCandidate (fun a b => b.conf ≤ a.conf) :=
  ⟨fun _ _ _ h1 h2 => le_trans h2 h1⟩

theorem sortByConfDesc_perm (l : List PostcodeCandidate) :
    List.Perm (sortByConfDesc l) l :=
  List.perm_insertionSort _ l

theorem sortByConfDesc_head_max (l : List PostcodeCandidate)
    (c : PostcodeCandidate) (rest : List PostcodeCandidate)
    (hsort : sortByConfDesc l = c :: rest) :
    c ∈ l ∧ ∀ x ∈ l, x.conf ≤ c.conf := by
  have hperm := sortByConfDesc_perm l
  have hmem : c ∈ l := hperm.mem_iff.mp (hsort ▸ List.mem_cons_self c rest)
  refine ⟨hmem, fun x hx => ?_⟩
  have hx' : x ∈ c :: rest := hsort ▸ hperm.mem_iff.mpr hx
  rcases List.mem_cons.mp hx' with hx' | hx'
  · exact le_of_eq (congrArg PostcodeCandidate.conf hx')
  · have hsorted := List.sorted_insertionSort
      (fun a b : PostcodeCandidate => b.conf ≤ a.conf) l
    rw [show List.insertionSort (fun a b : PostcodeCandidate => b.conf ≤ a.conf) l =
        sortByConfDesc l from rfl, hsort] at hsorted
    exact (List.sorted_cons.mp hsorted).1 x hx'

/-! ## Support for the scan-cap counterexample (claim C9) -/

theorem sndMemOfMemEnum {α : Type} {l : List α} {p : Nat × α} (hp : p ∈ l.enum) :
    p.2 ∈ l :=
  List.getElem?_mem (List.mem_enum_iff_getElem?.mp hp)

theorem contactStep_blank (blocks : List TextBlock) (dtype : String) (s : MapState)
    (i : Nat) (pg : Int) (ix : Option Nat) :
    contactStep blocks dtype s (i, ⟨"", pg, ix⟩) = s := by
  simp only [contactStep]
  norm_num [is_council_contact, emailSearch, phoneSearch, emailSearchAux,
    phoneSearchAux, lowerStr, strContains, containsSub, prefixMatch]

theorem contact_fold_blank (blocks : List TextBlock) (dtype : String) :
    ∀ (el : List (Nat × TextBlock)) (s : MapState),
      (∀ p ∈ el, p.2.content = "") →
      el.foldl (contactStep blocks dtype) s = s := by
  intro el
  induction el with
  | nil => intro s _; rfl
  | cons p rest ih =>
    intro s h
    have hp : p.2.content = "" := h p (List.mem_cons_self p rest)
    have hstep : contactStep blocks dtype s p = s := by
      obtain ⟨i, b⟩ := p
      obtain ⟨ct, pg, ix⟩ := b
      simp only at hp
      subst hp
      exact contactStep_blank blocks dtype s i pg ix
    rw [List.foldl_cons, hstep]
    exact ih s (fun q hq => h q (List.mem_cons_of_mem p hq))

set_option maxRecDepth 1000000 in
theorem c9A_take : c9A.take 400 = c9B := by
  simp [c9A, c9B, List.take_append_of_le_length, List.take_replicate]

set_option maxRecDepth 1000000 in
theorem c9B_take : c9B.take 400 = c9B := by
  simp [c9B, List.take_replicate]

set_option maxRecDepth 1000000 in
theorem c9_stage_contact (blocks : List TextBlock) (hb : blocks.take 400 = c9B)
    (dtype : String) (s : MapState) : stage_contact blocks dtype s = s := by
  unfold stage_contact
  rw [hb]
  apply contact_fold_blank
  intro p hp
  have h2 := sndMemOfMemEnum hp
  have h3 : p.2 = blankBlock := by simpa [c9B] using h2
  rw [h3]
  rfl

set_option maxRecDepth 1000000 in
theorem c9A_state : (stateAfterPostcode c9A).fields =
    [("document_type", FieldVal.str "unknown"),
     ("agent_name", FieldVal.str "John"),
     ("agent_name_confidence", FieldVal.num (mkRat 7 10))] := by decide

set_option maxRecDepth 1000000 in
theorem c9B_state : (stateAfterPostcode c9B).fields =
    [("document_type", FieldVal.str "unknown")] := by decide

/-! ## Claim theorems -/

set_option maxRecDepth 1000000 in
/-- C1 (code bug exhibit).  The spec scenario expects proposed_use to be
"change of use to a single dwelling", but re.split on the pattern
colon-or-for splits at the first "for" — the one inside "apply for" — so
map_fields stores the trailing text "Prior Approval: change of use to a
single dwelling" (confidence 0.9) instead. -/
theorem c1_prior_approval_split_bug :
    List.lookup "proposed_use" (map_fields ⟨some c1blocks, []⟩).fields =
      some (FieldVal.str "Prior Approval: change of use to a single dwelling") ∧
    List.lookup "proposed_use_confidence" (map_fields ⟨some c1blocks, []⟩).fields =
      some (FieldVal.num (mkRat 9 10)) ∧
    ("Prior Approval: change of use to a single dwelling" : String) ≠
      "change of use to a single dwelling" := by
  refine ⟨by decide, by decide, by decide⟩

set_option maxRecDepth 1000000 in
/-- C2 (code bug exhibit).  extract_from_pdf_bytes runs map_fields before
the loop that assigns block index entries, so the evidence block id for the
application reference comes out as "p1b" — not the "p1b0" the claim
requires, even though the block returned by the function carries index 0. -/
theorem c2_block_id_missing_index_bug :
    (∃ e, List.lookup "application_ref" (extract_from_pdf_bytes c2layout).evidence_index =
        some (EvIdxVal.fieldEv [e]) ∧ e.block_id = "p1b") ∧
    (extract_from_pdf_bytes c2layout).text_blocks = [⟨"PP-123456", 1, some 0⟩] ∧
    blockIdOf ⟨"PP-123456", 1, some 0⟩ = "p1b0" ∧
    ("p1b" : String) ≠ "p1b0" := by
  refine ⟨⟨⟨1, "p1b", "PP-123456", mkRat 9 10, some "unknown"⟩, by decide, by decide⟩,
    by decide, by decide, by decide⟩

set_option maxRecDepth 1000000 in
/-- C3 (counterexample).  A corpus matching one application_form hint and
two drawing hints classifies as "drawing": the priority order only breaks
ties, it does not stop a strictly higher score from winning. -/
theorem c3_priority_counterexample :
    1 ≤ hintScore application_form_hints (corpusOf c3blocks) ∧
    1 ≤ hintScore drawing_hints (corpusOf c3blocks) ∧
    classify_document c3blocks = "drawing" ∧
    ("drawing" : String) ≠ "application_form" := by
  refine ⟨by decide, by decide, by decide, by decide⟩

set_option maxRecDepth 1000000 in
/-- C5 (code bug exhibit).  On the spec's own scenario blocks the
"2 in tl" test also fires on the "1: 12" digits of the Address Line 1
block, so address_line2 is filled with the same text and map_fields
returns the duplicated address instead of
"12 Example Street, B12 3CD" (the confidence is 0.95 as stated). -/
theorem c5_site_address_scenario_bug :
    List.lookup "site_address" (map_fields ⟨some c5blocks, []⟩).fields =
      some (FieldVal.str "12 Example Street, 12 Example Street, B12 3CD") ∧
    List.lookup "site_address_confidence" (map_fields ⟨some c5blocks, []⟩).fields =
      some (FieldVal.num (mkRat 95 100)) ∧
    ("12 Example Street, 12 Example Street, B12 3CD" : String) ≠
      "12 Example Street, B12 3CD" := by
  refine ⟨by decide, by decide, by decide⟩

/-- C8.  A missing, None or empty text_blocks entry yields exactly the
fields dict containing only document_type "unknown" and an empty evidence
index, with no exception path (the embedding is total by construction). -/
theorem c8_empty_blocks_unknown :
    (map_fields ⟨none, []⟩).fields = [("document_type", FieldVal.str "unknown")] ∧
    (map_fields ⟨none, []⟩).evidence = [] ∧
    (map_fields ⟨some [], []⟩).fields = [("document_type", FieldVal.str "unknown")] ∧
    (map_fields ⟨some [], []⟩).evidence = [] := by
  refine ⟨by decide, by decide, by decide, by decide⟩

set_option maxRecDepth 1000000 in
/-- C7 (counterexample).  On the block "demolition of 123 B8 1BG" the
captured address text is "123" — three characters, not more than ten — yet
the function returns a result, because the length test in the source is
applied to the full address including the appended postcode. -/
theorem c7_demolition_counterexample :
    demolitionSearch (norm c7block.content) = some ("123", "B8 1BG") ∧
    (subTrailingCommaSpace (pyStrip "123")).data.length ≤ 10 ∧
    extract_address_from_demolition_pattern [c7block] =
      (some "123, B8 1BG", some c7block, mkRat 85 100) := by
  refine ⟨by decide, by decide, by decide⟩

set_option maxRecDepth 1000000 in
/-- C9 (counterexample).  Two inputs with identical first 400 blocks but a
401st block only in the first produce different results: the labelled-field
fallback extract_by_label scans the whole list, so the 401st block
"Agent name: John" populates agent_name in one run and not the other. -/
theorem c9_cap_counterexample :
    c9A.take 400 = c9B.take 400 ∧
    List.lookup "agent_name" (map_fields ⟨some c9A, []⟩).fields =
      some (FieldVal.str "John") ∧
    List.lookup "agent_name" (map_fields ⟨some c9B, []⟩).fields = none := by
  refine ⟨by rw [c9A_take, c9B_take], ?_, ?_⟩
  · show List.lookup "agent_name"
      (stage_contact c9A (classify_document c9A) (stateAfterPostcode c9A)).fields = _
    rw [c9_stage_contact c9A c9A_take, c9A_state]
    decide
  · show List.lookup "agent_name"
      (stage_contact c9B (classify_document c9B) (stateAfterPostcode c9B)).fields = _
    rw [c9_stage_contact c9B c9B_take, c9B_state]
    decide

/-- C4.  Within one map_fields run every fields key is assigned exactly
once: the ghost log of dict assignments is duplicate-free, and the keys of
the returned fields dict are exactly the logged assignments — so no
strategy ever overwrites a key an earlier strategy set. -/
theorem c4_fields_written_at_most_once (extracted_layout : ExtractedLayout) :
    (map_fields extracted_layout).writes.Nodup ∧
    (∀ k, hasKey (map_fields extracted_layout).fields k = true ↔
      k ∈ (map_fields extracted_layout).writes) :=
  ⟨(WFS_map_fields extracted_layout).nodup, (WFS_map_fields extracted_layout).keys_iff⟩

theorem conf_key_ends : ∀ g ∈ baseFields,
    strEnds (g ++ "_confidence") "_confidence" = true := by decide

theorem dtconf_ne_dt : ("document_type_confidence" : String) ≠ "document_type" := by
  decide

theorem dtconf_not_base : ("document_type_confidence" : String) ∉ baseFields := by
  decide

theorem dtconf_ne_conf : ∀ g ∈ baseFields,
    ("document_type_confidence" : String) ≠ g ++ "_confidence" := by decide

set_option maxRecDepth 10000 in
/-- C10.  Every populated field other than document_type has a numeric
parallel confidence entry, exactly one evidence entry, and the two agree on
the confidence; document_type gets neither a confidence entry nor
evidence. -/
theorem c10_confidence_evidence_parity (extracted_layout : ExtractedLayout)
    (f : String)
    (hmem : hasKey (map_fields extracted_layout).fields f = true)
    (hdt : f ≠ "document_type")
    (hconf : strEnds f "_confidence" = false) :
    (∃ c, List.lookup (f ++ "_confidence") (map_fields extracted_layout).fields =
        some (FieldVal.num c) ∧
      ∃ e, List.lookup f (map_fields extracted_layout).evidence = some [e] ∧
        e.confidence = c) ∧
    List.lookup "document_type_confidence" (map_fields extracted_layout).fields = none ∧
    List.lookup "document_type" (map_fields extracted_layout).evidence = none := by
  have h := WFS_map_fields extracted_layout
  have hw := (h.keys_iff f).mp hmem
  have hdtc : "document_type_confidence" ∉ (map_fields extracted_layout).writes := by
    intro hx
    rcases h.okKeys _ hx with h1 | ⟨g, hg, h1 | h1⟩
    · exact dtconf_ne_dt h1
    · exact dtconf_not_base (h1 ▸ hg)
    · exact dtconf_ne_conf g hg h1
  refine ⟨?_, ?_, h.dt_ev⟩
  · rcases h.okKeys f hw with h1 | ⟨g, hg, h1 | h1⟩
    · exact absurd h1 hdt
    · subst h1
      exact h.conf_ev f hg hw
    · rw [h1] at hconf
      rw [conf_key_ends g hg] at hconf
      exact absurd hconf (by simp)
  · have hkey : hasKey (map_fields extracted_layout).fields
        "document_type_confidence" = false := by
      cases hx : hasKey (map_fields extracted_layout).fields "document_type_confidence"
      · rfl
      · exact absurd ((h.keys_iff _).mp hx) hdtc
    exact lookupF_eq_none_of_hasKey_false _ _ hkey

set_option maxRecDepth 1000000 in
/-- C10 witness at a concrete input that populates application_ref. -/
theorem c10_confidence_evidence_parity_witness :
    (hasKey (map_fields ⟨some c10blocks, []⟩).fields "application_ref" = true ∧
      ("application_ref" : String) ≠ "document_type" ∧
      strEnds "application_ref" "_confidence" = false) ∧
    ((∃ c, List.lookup ("application_ref" ++ "_confidence")
        (map_fields ⟨some c10blocks, []⟩).fields = some (FieldVal.num c) ∧
      ∃ e, List.lookup "application_ref" (map_fields ⟨some c10blocks, []⟩).evidence =
          some [e] ∧ e.confidence = c) ∧
    List.lookup "document_type_confidence" (map_fields ⟨some c10blocks, []⟩).fields =
      none ∧
    List.lookup "document_type" (map_fields ⟨some c10blocks, []⟩).evidence = none) :=
  ⟨⟨by decide, by decide, by decide⟩,
   c10_confidence_evidence_parity ⟨some c10blocks, []⟩ "application_ref" (by decide)
     (by decide) (by decide)⟩

theorem WFS_stateAfterLabels (blocks : List TextBlock) :
    WFS (stateAfterLabels blocks) := by
  unfold stateAfterLabels
  apply WFS_stage_labels
  unfold stateAfterProposed
  apply WFS_stage_proposed_use
  unfold stateAfterSite
  apply WFS_stage_site_address
  unfold stateAfterAppref
  apply WFS_stage_appref
  · exact WFS_stateAfterDoctype _
  · show "application_ref" ∉ (stateAfterDoctype _).writes
    simp [stateAfterDoctype, dictSet]

theorem lookup_writeFieldWithEv_self (s : MapState) (f : String) (v : FieldVal)
    (c : ℚ) (page : Int) (bid snip dtype : String)
    (h : hasKey s.fields f = false) (hne : f ≠ f ++ "_confidence") :
    lookupF (writeFieldWithEv s f v c page bid snip dtype).fields f = some v := by
  unfold writeFieldWithEv addEvS
  show lookupF (dictSet (dictSet s f v) (f ++ "_confidence") (FieldVal.num c)).fields f =
    some v
  rw [lookup_dictSet_ne _ _ _ _ hne]
  exact lookup_dictSet_self_fresh s f v h

/-- C6.  If some block's postcode candidate is hard-penalized to 0.1 and
any candidate reaches confidence 0.3, the selected postcode comes from a
candidate with confidence at least 0.3 — never the penalized candidate. -/
theorem c6_postcode_deprioritization (blocks : List TextBlock)
    (tables : List PTable) (cpen c0 : PostcodeCandidate)
    (hpen : cpen ∈ postcodeCandidates blocks) (hpconf : cpen.conf = mkRat 1 10)
    (h0 : c0 ∈ postcodeCandidates blocks) (h0conf : mkRat 3 10 ≤ c0.conf) :
    ∃ csel ∈ postcodeCandidates blocks,
      List.lookup "postcode" (map_fields ⟨some blocks, tables⟩).fields =
        some (FieldVal.str csel.pc) ∧
      mkRat 3 10 ≤ csel.conf ∧ csel ≠ cpen := by
  have hW := WFS_stateAfterLabels blocks
  have hkey : hasKey (stateAfterLabels blocks).fields "postcode" = false := by
    cases hx : hasKey (stateAfterLabels blocks).fields "postcode"
    · rfl
    · exact absurd ((hW.keys_iff _).mp hx) (postcode_not_written_before blocks)
  obtain ⟨c, rest, hsort⟩ : ∃ c rest,
      sortByConfDesc (postcodeCandidates blocks) = c :: rest := by
    cases hx : sortByConfDesc (postcodeCandidates blocks) with
    | nil =>
      have := (sortByConfDesc_perm (postcodeCandidates blocks)).mem_iff.mpr h0
      rw [hx] at this
      exact absurd this (List.not_mem_nil c0)
    | cons c rest => exact ⟨c, rest, rfl⟩
  obtain ⟨hcmem, hcmax⟩ := sortByConfDesc_head_max _ c rest hsort
  have hcconf : mkRat 3 10 ≤ c.conf := le_trans h0conf (hcmax c0 h0)
  have hcond : (decide (postcodeCandidates blocks ≠ []) &&
      !(hasKey (stateAfterLabels blocks).fields "postcode")) = true := by
    rw [hkey]
    simp [List.ne_nil_of_mem h0]
  have hpost : stage_postcode blocks (classify_document blocks)
      (stateAfterLabels blocks) =
      writeFieldWithEv (stateAfterLabels blocks) "postcode" (FieldVal.str c.pc)
        c.conf c.block.page_number (blockIdOf c.block) c.block.content
        (classify_document blocks) := by
    unfold stage_postcode
    dsimp only
    rw [if_pos hcond, hsort]
    dsimp only
    rw [if_pos hcconf]
  refine ⟨c, hcmem, ?_, hcconf, ?_⟩
  · show lookupF (map_fields ⟨some blocks, tables⟩).fields "postcode" = _
    unfold map_fields
    have hblocks : (⟨some blocks, tables⟩ : ExtractedLayout).text_blocks.getD [] =
      blocks := rfl
    rw [hblocks]
    unfold stage_contact
    rw [lookup_contact_fold_pres blocks (classify_document blocks) "postcode"
      (by decide) (by decide) (by decide) (by decide)]
    unfold stateAfterPostcode
    rw [hpost]
    exact lookup_writeFieldWithEv_self _ _ _ _ _ _ _ _ hkey (by decide)
  · intro he
    rw [he, hpconf] at hcconf
    exact absurd hcconf (by decide)

set_option maxRecDepth 1000000 in
/-- C6 witness: the PO-box block is penalized to 0.1 and the labelled
postcode block scores 0.9, so the selected postcode is the unpenalized
candidate. -/
theorem c6_postcode_deprioritization_witness :
    (c6pen ∈ postcodeCandidates c6blocks ∧ c6pen.conf = mkRat 1 10 ∧
      c6good ∈ postcodeCandidates c6blocks ∧ mkRat 3 10 ≤ c6good.conf) ∧
    (∃ csel ∈ postcodeCandidates c6blocks,
      List.lookup "postcode" (map_fields ⟨some c6blocks, []⟩).fields =
        some (FieldVal.str csel.pc) ∧
      mkRat 3 10 ≤ csel.conf ∧ csel ≠ c6pen) :=
  ⟨⟨by decide, by decide, by decide, by decide⟩,
   c6_postcode_deprioritization c6blocks [] c6pen c6good (by decide) (by decide)
     (by decide) (by decide)⟩

theorem c7_demolition_aux : ∀ (l : List TextBlock),
    ((∃ a blk, extract_address_from_demolition_pattern_aux l =
        (some a, some blk, mkRat 85 100)) ↔
      ∃ b ∈ l, demolitionAccepted b = true)
  | [] => by
    simp [extract_address_from_demolition_pattern_aux]
  | b :: rest => by
    rw [show (∃ bb ∈ b :: rest, demolitionAccepted bb = true) ↔
        (demolitionAccepted b = true ∨ ∃ bb ∈ rest, demolitionAccepted bb = true) by
      simp]
    simp only [extract_address_from_demolition_pattern_aux]
    split
    next htrig =>
      cases hm : demolitionSearch (norm b.content) with
      | some g =>
        obtain ⟨g1, g2⟩ := g
        simp only [hm]
        split
        next hlen =>
          constructor
          · intro _
            refine Or.inl ?_
            simp only [demolitionAccepted, hm]
            rw [htrig]
            simpa using hlen
          · intro _
            exact ⟨_, _, rfl⟩
        next hlen =>
          rw [c7_demolition_aux rest]
          constructor
          · intro h; exact Or.inr h
          · intro h
            rcases h with h | h
            · exfalso
              simp only [demolitionAccepted, hm] at h
              rw [htrig] at h
              simp only [Bool.true_and, decide_eq_true_eq] at h
              exact hlen h
            · exact h
      | none =>
        simp only [hm]
        rw [c7_demolition_aux rest]
        constructor
        · intro h; exact Or.inr h
        · intro h
          rcases h with h | h
          · exfalso
            simp only [demolitionAccepted, hm] at h
            rw [htrig] at h
            simp at h
          · exact h
    next htrig =>
      rw [c7_demolition_aux rest]
      constructor
      · intro h; exact Or.inr h
      · intro h
        rcases h with h | h
        · exfalso
          simp only [demolitionAccepted, Bool.and_eq_true] at h
          exact htrig h.1
        · exact h

/-- C7 (amended).  extract_address_from_demolition_pattern returns a result
(with confidence 0.85) exactly when some block among the first 100 triggers
the scan, the demolition regular expression matches, and the assembled full
address — the stripped captured text joined by a comma with the upper-cased
postcode — exceeds ten characters. -/
theorem c7_demolition_amended (blocks : List TextBlock) :
    (∃ a blk, extract_address_from_demolition_pattern blocks =
        (some a, some blk, mkRat 85 100)) ↔
      ∃ b ∈ blocks.take 100, demolitionAccepted b = true :=
  c7_demolition_aux (blocks.take 100)

theorem find?_congrP {α : Type} (xs : List α) (p q : α → Bool)
    (h : ∀ x ∈ xs, p x = q x) : xs.find? p = xs.find? q := by
  induction xs with
  | nil => rfl
  | cons a rest ih =>
    have ha := h a (List.mem_cons_self a rest)
    rw [List.find?_cons, List.find?_cons, ha]
    split
    · rfl
    · exact ih (fun x hx => h x (List.mem_cons_of_mem a hx))

theorem foldl_congrP {α β : Type} (xs : List α) (f g : β → α → β) (s : β)
    (h : ∀ s' x, x ∈ xs → f s' x = g s' x) : xs.foldl f s = xs.foldl g s := by
  induction xs generalizing s with
  | nil => rfl
  | cons a rest ih =>
    rw [List.foldl_cons, List.foldl_cons, h s a (List.mem_cons_self a rest)]
    exact ih _ (fun s' x hx => h s' x (List.mem_cons_of_mem a hx))

theorem getBlock_take (l : List TextBlock) (n i : Nat) (h : i < n) :
    getBlock (l.take n) i = getBlock l i := by
  unfold getBlock
  rw [List.getD_eq_getElem?_getD, List.getD_eq_getElem?_getD,
    List.getElem?_take_of_lt h]

theorem is_in_site_take (l : List TextBlock) (n i : Nat) (h : i ≤ n) :
    is_in_site_location_section (l.take n) i = is_in_site_location_section l i := by
  unfold is_in_site_location_section
  rw [List.take_take, Nat.min_eq_left h]

theorem corpusOf_take (l : List TextBlock) : corpusOf (l.take 402) = corpusOf l := by
  unfold corpusOf
  rw [List.take_take]
  have h200 : min 200 402 = 200 := by omega
  rw [h200]

theorem classify_take (l : List TextBlock) :
    classify_document (l.take 402) = classify_document l := by
  unfold classify_document
  rw [corpusOf_take]

theorem stage_appref_take (l : List TextBlock) (d : String) (s : MapState) :
    stage_appref (l.take 402) d s = stage_appref l d s := by
  unfold stage_appref
  rw [List.take_take]
  have h400 : min 400 402 = 400 := by omega
  rw [h400]

theorem findSectionHeader_take (l : List TextBlock) :
    findSectionHeader (l.take 402) = findSectionHeader l := by
  by_cases hlen : l.length ≤ 402
  · rw [List.take_of_length_le hlen]
  · unfold findSectionHeader
    have h1 : (l.take 402).length = 402 := by
      rw [List.length_take]
      omega
    rw [h1]
    have h2 : min 200 402 = 200 := by omega
    have h3 : min 200 l.length = 200 := by omega
    rw [h2, h3]
    apply find?_congrP
    intro i hi
    have : i < 200 := List.mem_range.mp hi
    rw [getBlock_take l 402 i (by omega)]

theorem sectionStep_take (l : List TextBlock) (start : Nat) (acc : SectionAcc)
    (i : Nat) (h : i < 402) :
    sectionStep (l.take 402) start acc i = sectionStep l start acc i := by
  unfold sectionStep
  rw [getBlock_take l 402 i h, getBlock_take l 402 (i - 1) (by omega)]

theorem extract_site_take (l : List TextBlock) :
    extract_site_address_from_section (l.take 402) =
      extract_site_address_from_section l := by
  by_cases hlen : l.length ≤ 402
  · rw [List.take_of_length_le hlen]
  · unfold extract_site_address_from_section
    rw [findSectionHeader_take]
    cases hfind : findSectionHeader l with
    | none => rfl
    | some start =>
      have hstart : start < 200 := by
        unfold findSectionHeader at hfind
        have := List.mem_of_find?_eq_some hfind
        have h2 := List.mem_range.mp this
        omega
      have hlen' : (l.take 402).length = 402 := by
        rw [List.length_take]; omega
      dsimp only
      rw [hlen']
      have hstop : min (start + 20) 402 = start + 20 := by omega
      have hstop2 : min (start + 20) l.length = start + 20 := by omega
      rw [hstop, hstop2]
      have hfold : (List.range' (start + 1) (start + 20 - (start + 1))).foldl
          (sectionStep (l.take 402) start) ⟨none, none, none, none, none⟩ =
          (List.range' (start + 1) (start + 20 - (start + 1))).foldl
          (sectionStep l start) ⟨none, none, none, none, none⟩ := by
        apply foldl_congrP
        intro acc i hi
        have := List.mem_range'_1.mp hi
        exact sectionStep_take l start acc i (by omega)
      rw [hfold]
      have hlt : start < 402 := by omega
      have hlt2 : start < l.length := by omega
      rw [if_pos hlt, if_pos hlt2, getBlock_take l 402 start (by omega)]

theorem demolition_take (l : List TextBlock) :
    extract_address_from_demolition_pattern (l.take 402) =
      extract_address_from_demolition_pattern l := by
  unfold extract_address_from_demolition_pattern
  rw [List.take_take]
  have h100 : min 100 402 = 100 := by omega
  rw [h100]

theorem heurStep_take (l : List TextBlock) (best : HeurBest) (p : Nat × TextBlock)
    (h : p.1 ≤ 402) :
    heurStep (l.take 402) best p = heurStep l best p := by
  unfold heurStep
  dsimp only
  rw [is_in_site_take l 402 p.1 h]

theorem pick_site_take (l : List TextBlock) :
    pick_site_address (l.take 402) = pick_site_address l := by
  unfold pick_site_address
  rw [extract_site_take, demolition_take, List.take_take]
  have hm : min 100 402 = 100 := by omega
  rw [hm]
  have hfold : ((l.take 100).enum).foldl (heurStep (l.take 402)) ⟨none, none, 0⟩ =
      ((l.take 100).enum).foldl (heurStep l) ⟨none, none, 0⟩ := by
    apply foldl_congrP
    intro best p hp
    have h1 := List.fst_lt_of_mem_enum hp
    have h2 : (l.take 100).length ≤ 100 := by
      rw [List.length_take]; omega
    exact heurStep_take l best p (by omega)
  rw [hfold]

theorem pick_proposed_take (l : List TextBlock) :
    pick_proposed_use (l.take 402) = pick_proposed_use l := by
  unfold pick_proposed_use
  rw [List.take_take]
  have h80 : min 80 402 = 80 := by omega
  rw [h80]

theorem stage_site_take (l : List TextBlock) (d : String) (s : MapState) :
    stage_site_address (l.take 402) d s = stage_site_address l d s := by
  unfold stage_site_address
  rw [pick_site_take]

theorem stage_proposed_take (l : List TextBlock) (d : String) (s : MapState) :
    stage_proposed_use (l.take 402) d s = stage_proposed_use l d s := by
  unfold stage_proposed_use
  rw [List.take_take, pick_proposed_take]
  have h100 : min 100 402 = 100 := by omega
  rw [h100]

theorem postcodeCandidates_take (l : List TextBlock) :
    postcodeCandidates (l.take 402) = postcodeCandidates l := by
  unfold postcodeCandidates
  rw [List.take_take]
  have h100 : min 400 402 = 400 := by omega
  rw [h100]
  apply foldl_congrP
  intro acc p hp
  have h1 := List.fst_lt_of_mem_enum hp
  have h2 : (l.take 400).length ≤ 400 := by
    rw [List.length_take]; omega
  dsimp only
  rw [is_in_site_take l 402 p.1 (by omega)]

theorem stage_postcode_take (l : List TextBlock) (d : String) (s : MapState) :
    stage_postcode (l.take 402) d s = stage_postcode l d s := by
  unfold stage_postcode
  dsimp only
  rw [postcodeCandidates_take]

theorem contactContext_take (l : List TextBlock) (i : Nat) (h : i ≤ 399) :
    contactContext (l.take 402) i = contactContext l i := by
  by_cases hlen : l.length ≤ 402
  · rw [List.take_of_length_le hlen]
  · unfold contactContext pySlice
    have hlen' : (l.take 402).length = 402 := by
      rw [List.length_take]; omega
    rw [hlen']
    have h1 : min 402 (i + 3) = i + 3 := by omega
    have h2 : min l.length (i + 3) = i + 3 := by omega
    rw [h1, h2]
    have h3 : (l.take 402).drop (i - 2) = (l.drop (i - 2)).take (402 - (i - 2)) := by
      rw [List.take_drop]
      have he : i - 2 + (402 - (i - 2)) = 402 := by omega
      rw [he]
    rw [h3, List.take_take]
    have he2 : min (i + 3 - (i - 2)) (402 - (i - 2)) = i + 3 - (i - 2) := by omega
    rw [he2]

theorem contactStep_take (l : List TextBlock) (d : String) (s : MapState)
    (p : Nat × TextBlock) (h : p.1 ≤ 399) :
    contactStep (l.take 402) d s p = contactStep l d s p := by
  unfold contactStep
  dsimp only
  rw [contactContext_take l p.1 h]

theorem stage_contact_take (l : List TextBlock) (d : String) (s : MapState) :
    stage_contact (l.take 402) d s = stage_contact l d s := by
  unfold stage_contact
  rw [List.take_take]
  have h100 : min 400 402 = 400 := by omega
  rw [h100]
  apply foldl_congrP
  intro s' p hp
  have h1 := List.fst_lt_of_mem_enum hp
  have h2 : (l.take 400).length ≤ 400 := by
    rw [List.length_take]; omega
  exact contactStep_take l d s' p (by omega)

theorem extract_by_label_aux_skip (blocks : List TextBlock) (pats : List String)
    (l : List TextBlock) (i : Nat)
    (h : ∀ b ∈ l, pats.any (fun p => strContains (lowerStr (PlanProof.norm b.content)) p) = false) :
    extract_by_label_aux blocks pats i l = none := by
  induction l generalizing i with
  | nil => rfl
  | cons b rest ih =>
    have hb := h b (List.mem_cons_self b rest)
    unfold extract_by_label_aux
    dsimp only
    rw [hb]
    simp only [Bool.false_eq_true, if_false]
    exact ih (i + 1) (fun b' hb' => h b' (List.mem_cons_of_mem b hb'))

theorem c9w_take : c9wA.take 402 = c9wB.take 402 := by
  unfold c9wA c9wB
  have hlen : (List.replicate 402 blankBlock).length = 402 := by
    rw [List.length_replicate]
  rw [List.take_of_length_le (le_of_eq hlen)]
  rw [List.take_append_of_le_length (le_of_eq hlen.symm)]
  exact List.take_of_length_le (le_of_eq hlen)

theorem c9w_lab :
    ∀ fp ∈ LABEL_PATTERNS, extract_by_label c9wA fp.2 = extract_by_label c9wB fp.2 := by
  intro fp hfp
  unfold extract_by_label
  have hA : ∀ b ∈ c9wA,
      fp.2.any (fun p => strContains (lowerStr (PlanProof.norm b.content)) p) = false := by
    intro b hb
    unfold c9wA at hb
    rcases List.mem_append.mp hb with hb | hb
    · have := List.eq_of_mem_replicate hb
      subst this
      fin_cases hfp <;> decide
    · have : b = c9wBlock := by simpa using hb
      subst this
      fin_cases hfp <;> decide
  have hB : ∀ b ∈ c9wB,
      fp.2.any (fun p => strContains (lowerStr (PlanProof.norm b.content)) p) = false := by
    intro b hb
    have := List.eq_of_mem_replicate hb
    subst this
    fin_cases hfp <;> decide
  rw [extract_by_label_aux_skip c9wA fp.2 c9wA 0 hA,
    extract_by_label_aux_skip c9wB fp.2 c9wB 0 hB]

/-- C9: amended.  The 400-block cap stated by the spec is not exact: the
labelled-fields fallback scans all blocks and the contact loop's context
window reaches two blocks past its 400-block cap.  What does hold: if two
inputs agree on their first 402 text blocks and the uncapped labelled-field
extractor returns the same result on both for every label pattern, then
map_fields returns identical results, whatever the later blocks and the
tables contain. -/
theorem c9_cap_amended (A B : List TextBlock) (tA tB : List PTable)
    (htake : A.take 402 = B.take 402)
    (hlab : ∀ fp ∈ LABEL_PATTERNS, extract_by_label A fp.2 = extract_by_label B fp.2) :
    map_fields ⟨some A, tA⟩ = map_fields ⟨some B, tB⟩ := by
  have hd : classify_document A = classify_document B := by
    rw [← classify_take A, ← classify_take B, htake]
  have h0 : stateAfterDoctype A = stateAfterDoctype B := by
    unfold stateAfterDoctype
    rw [hd]
  have h1 : stateAfterAppref A = stateAfterAppref B := by
    unfold stateAfterAppref
    rw [hd, h0, ← stage_appref_take A, htake, stage_appref_take]
  have h2 : stateAfterSite A = stateAfterSite B := by
    unfold stateAfterSite
    rw [hd, h1, ← stage_site_take A, htake, stage_site_take]
  have h3 : stateAfterProposed A = stateAfterProposed B := by
    unfold stateAfterProposed
    rw [hd, h2, ← stage_proposed_take A, htake, stage_proposed_take]
  have h4 : stateAfterLabels A = stateAfterLabels B := by
    unfold stateAfterLabels stage_labels
    rw [hd, h3]
    apply foldl_congrP
    intro s' fp hfp
    unfold labelStep
    rw [hlab fp hfp]
  have h5 : stateAfterPostcode A = stateAfterPostcode B := by
    unfold stateAfterPostcode
    rw [hd, h4, ← stage_postcode_take A, htake, stage_postcode_take]
  unfold map_fields
  simp only [Option.getD_some]
  rw [hd, h5, ← stage_contact_take A, htake, stage_contact_take]

theorem c9_cap_amended_witness :
    c9wA.take 402 = c9wB.take 402 ∧
    (∀ fp ∈ LABEL_PATTERNS, extract_by_label c9wA fp.2 = extract_by_label c9wB fp.2) ∧
    map_fields ⟨some c9wA, []⟩ = map_fields ⟨some c9wB, []⟩ :=
  ⟨c9w_take, c9w_lab, c9_cap_amended c9wA c9wB [] [] c9w_take c9w_lab⟩

theorem foldl_argmax_lt (l : List (String × Nat)) (init : String × Nat) (s : Nat)
    (hinit : init.2 < s) (hl : ∀ p ∈ l, p.2 < s) :
    (l.foldl (fun best p => if p.2 > best.2 then p else best) init).2 < s := by
  induction l generalizing init with
  | nil => exact hinit
  | cons a rest ih =>
    rw [List.foldl_cons]
    apply ih
    · by_cases h : a.2 > init.2
      · rw [if_pos h]
        exact hl a (List.mem_cons_self a rest)
      · rw [if_neg h]
        exact hinit
    · intro p hp
      exact hl p (List.mem_cons_of_mem a hp)

theorem foldl_argmax_keep (l : List (String × Nat)) (init : String × Nat)
    (hl : ∀ p ∈ l, p.2 ≤ init.2) :
    l.foldl (fun best p => if p.2 > best.2 then p else best) init = init := by
  induction l with
  | nil => rfl
  | cons a rest ih =>
    rw [List.foldl_cons,
      if_neg (by
        have := hl a (List.mem_cons_self a rest)
        omega)]
    exact ih (fun p hp => hl p (List.mem_cons_of_mem a hp))

theorem foldl_argmax_first (l : List (String × Nat)) (i : Nat) (hi : i < l.length)
    (h1 : 1 ≤ l[i].2)
    (hmax : ∀ j, ∀ hj : j < l.length, l[j].2 ≤ l[i].2)
    (hstrict : ∀ j, ∀ hj : j < i, l[j].2 < l[i].2) :
    l.foldl (fun best p => if p.2 > best.2 then p else best) ("unknown", 0) = l[i] := by
  conv_lhs => rw [← List.take_append_drop i l, List.drop_eq_getElem_cons hi]
  rw [List.foldl_append, List.foldl_cons]
  have hb0 : (List.foldl (fun best p => if p.2 > best.2 then p else best)
      (("unknown", 0) : String × Nat) (l.take i)).2 < l[i].2 := by
    apply foldl_argmax_lt
    · omega
    · intro p hp
      obtain ⟨j, hj, hpj⟩ := List.mem_iff_getElem.mp hp
      have hji : j < i := by
        rw [List.length_take] at hj
        omega
      rw [← hpj, List.getElem_take]
      exact hstrict j hji
  rw [if_pos hb0]
  apply foldl_argmax_keep
  intro p hp
  obtain ⟨j, hj, hpj⟩ := List.mem_iff_getElem.mp hp
  have hjl : i + 1 + j < l.length := by
    rw [List.length_drop] at hj
    omega
  rw [← hpj, List.getElem_drop]
  exact hmax (i + 1 + j) hjl

theorem classify_document_as_argmax (blocks : List TextBlock) :
    classify_document blocks =
      (let best := (priority_order.map
          (fun dt => (dt, doctypeScore blocks dt))).foldl
          (fun best p => if p.2 > best.2 then p else best) ("unknown", 0)
        let best :=
          if best.2 = 0 then
            DOC_TYPE_HINTS.foldl (fun best p =>
              if priority_order.contains p.1 then best
              else
                let score := hintScore p.2 (corpusOf blocks)
                if score > best.2 then (p.1, score) else best) best
          else best
        best.1) := by
  unfold classify_document
  dsimp only
  rw [List.foldl_map]
  have hcong := foldl_congrP priority_order
    (fun best dtype =>
      match DOC_TYPE_HINTS.find? (fun p => p.1 = dtype) with
      | none => best
      | some hp =>
        if hintScore hp.2 (corpusOf blocks) > best.2
          then (dtype, hintScore hp.2 (corpusOf blocks)) else best)
    (fun best dt =>
      if (dt, doctypeScore blocks dt).2 > best.2
        then (dt, doctypeScore blocks dt) else best)
    ("unknown", 0)
    (by
      intro best dt hdt
      simp only [doctypeScore]
      cases hf : DOC_TYPE_HINTS.find? (fun p => p.1 = dt) with
      | none => simp
      | some hp => rfl)
  rw [hcong]

/-- C3 (amended).  classify_document scores each document type by the
number of its DOC_TYPE_HINTS patterns matching the lower-cased,
space-joined corpus of the first 200 blocks, and, walking the priority
order [application_form, site_notice, site_plan, design_statement,
heritage, drawing], keeps the first strictly-best score, so it returns the
earliest type of the priority order attaining the maximum score: if the
type at position i scores at least 1, no type of the order scores above
it, and every type earlier in the order scores strictly below it, the
classification is that type.  The priority order therefore only breaks
ties — it does not let an earlier type beat a later type with a strictly
higher score. -/
theorem c3_priority_amended (blocks : List TextBlock) (i : Nat)
    (hi : i < priority_order.length)
    (h1 : 1 ≤ doctypeScore blocks (priority_order.getD i ""))
    (hmax : ∀ j, j < priority_order.length →
      doctypeScore blocks (priority_order.getD j "") ≤
        doctypeScore blocks (priority_order.getD i ""))
    (hstrict : ∀ j, j < i →
      doctypeScore blocks (priority_order.getD j "") <
        doctypeScore blocks (priority_order.getD i "")) :
    classify_document blocks = priority_order.getD i "" := by
  have hget : ∀ j, ∀ hj : j < priority_order.length,
      priority_order.getD j "" = priority_order[j] := by
    intro j hj
    rw [List.getD_eq_getElem?_getD, List.getElem?_eq_getElem hj]
    rfl
  have him : i < (priority_order.map (fun dt => (dt, doctypeScore blocks dt))).length := by
    rw [List.length_map]
    exact hi
  have hlenm : (priority_order.map (fun dt => (dt, doctypeScore blocks dt))).length =
      priority_order.length := by
    rw [List.length_map]
  have hgm : ∀ j, ∀ hjp : j < priority_order.length,
      ∀ hjm : j < (priority_order.map (fun dt => (dt, doctypeScore blocks dt))).length,
      (priority_order.map (fun dt => (dt, doctypeScore blocks dt)))[j] =
        (priority_order[j], doctypeScore blocks priority_order[j]) := by
    intro j hjp hjm
    rw [List.getElem_map]
  rw [classify_document_as_argmax]
  dsimp only
  rw [foldl_argmax_first _ i him
    (by
      rw [hgm i hi him]
      rw [hget i hi] at h1
      exact h1)
    (by
      intro j hj
      have hjp : j < priority_order.length := by
        rw [List.length_map] at hj
        exact hj
      rw [hgm i hi him, hgm j hjp hj]
      have hle := hmax j hjp
      rw [hget i hi, hget j hjp] at hle
      exact hle)
    (by
      intro j hj
      have hjp : j < priority_order.length := by omega
      have hjm : j < (priority_order.map (fun dt => (dt, doctypeScore blocks dt))).length := by
        rw [hlenm]
        exact hjp
      rw [hgm i hi him, hgm j hjp hjm]
      have hlt := hstrict j hj
      rw [hget i hi, hget j hjp] at hlt
      exact hlt)]
  rw [hgm i hi him]
  dsimp only
  rw [if_neg (by
    rw [hget i hi] at h1
    omega)]
  rw [hget i hi]

set_option maxRecDepth 1000000 in
/-- C3 amended witness: on the counterexample corpus — one
application_form hint, two drawing hints — position 5 of the priority
order (drawing) satisfies all three hypotheses and classify_document
returns drawing. -/
theorem c3_priority_amended_witness :
    ((5 : Nat) < priority_order.length ∧
      1 ≤ doctypeScore c3blocks (priority_order.getD 5 "") ∧
      (∀ j, j < priority_order.length →
        doctypeScore c3blocks (priority_order.getD j "") ≤
          doctypeScore c3blocks (priority_order.getD 5 "")) ∧
      (∀ j, j < 5 →
        doctypeScore c3blocks (priority_order.getD j "") <
          doctypeScore c3blocks (priority_order.getD 5 ""))) ∧
    classify_document c3blocks = "drawing" :=
  ⟨⟨by decide, by decide, by decide, by decide⟩,
   (c3_priority_amended c3blocks 5 (by decide) (by decide) (by decide)
     (by decide)).trans (by decide)⟩

end PlanProof
